import Mathlib

/-!
# Shallow embedding of the shelf-pack library

This file embeds the TypeScript classes `Bin`, `Shelf` and `ShelfPack`
(the Shelf Best Height Fit packer) in Lean and proves properties of the
embedding.

Modelling choices:
* JavaScript numbers are modelled as `Int`; all quantities manipulated by
  the library (coordinates, sizes, waste, refcounts) are integer valued on
  the inputs considered.
* `Bin` objects are shared mutable state (the registry, the free list and
  the caller may all alias one bin, and `ref`/`unref` mutate it through
  any alias).  The embedding therefore uses an explicit heap: bins live in
  `ShelfPack.store`, addressed by `Nat` addresses, and `freebins` and the
  `bins` registry hold addresses.  `nextAddr` is the allocation counter.
  The heap never forgets a bin (JavaScript objects stay alive while the
  caller holds them), mirroring that `clear` does not mutate caller-held
  bins.
* Bin ids are `string | number`; JavaScript object keys are strings, so a
  numeric id `1` and the string id `"1"` denote the same registry key.
  `idKey` canonicalises an id to its registry key.
* The sentinel `waste: Infinity` is `Option Int` with `none` = Infinity,
  and the `best.freebin = -1` / `best.shelf = -1` sentinels are kept as
  `Int` as in the source.
* `packOne` recurses after an auto-resize; the recursion is fuel-indexed
  (`PackResult.fuelOut` reports exhaustion).  The `throw new Error` in
  `allocShelf` (and a crash on an invalid index) is `PackResult.internalError`.
-/

namespace SP

/-- A bin id: `string | number`. -/
inductive BinId where
  | str (s : String)
  | num (n : Int)
deriving DecidableEq, Repr

/-- The numeric value of a decimal digit. -/
def digitVal? (c : Char) : Option Nat :=
  if '0' ≤ c ∧ c ≤ '9' then some (c.toNat - '0'.toNat) else none

/-- Value of a nonempty all-digit character list (most significant first). -/
def digitsValAux : List Char → Nat → Option Nat
  | [], acc => some acc
  | c :: rest, acc =>
    match digitVal? c with
    | some d => digitsValAux rest (acc * 10 + d)
    | none => none

/-- `some n` exactly when the string is the canonical decimal form of the
integer `n` (no leading zeros, no stray characters, `-` only on negatives). -/
def canonNumVal? (s : String) : Option Int :=
  match s.data with
  | [] => none
  | ['0'] => some 0
  | '-' :: rest =>
    match rest with
    | [] => none
    | c :: _ =>
      if c = '0' then none
      else (digitsValAux rest 0).map (fun n => -(n : Int))
  | c :: rest =>
    if c = '0' then none
    else (digitsValAux (c :: rest) 0).map (fun n => (n : Int))

/-- JavaScript object keys are strings, so `this.bins[id]` uses the string
coercion of `id`: the number `1` and the string `"1"` collide.  `idKey`
canonicalises an id to a representative of its string key: a string that is
the canonical decimal form of an integer is mapped to that integer. -/
def idKey (i : BinId) : BinId :=
  match i with
  | .num n => .num n
  | .str s =>
    match canonNumVal? s with
    | some n => .num n
    | none => .str s

/-- The `Bin` class: a rectangular area with an id, a position, the active
size `(w, h)`, the granted footprint `(maxw, maxh)` and a refcount. -/
structure Bin where
  id : BinId
  x : Int
  y : Int
  w : Int
  h : Int
  maxw : Int
  maxh : Int
  refcount : Int
deriving DecidableEq, Repr

/-- The `Shelf` class: a horizontal row at `y` of height `h`, with width
`w`, cursor `x` and remaining width `free`. -/
structure Shelf where
  y : Int
  w : Int
  h : Int
  x : Int
  free : Int
deriving DecidableEq, Repr

/-- `new Shelf(y, width, height, x = 0)`: sets `free = width`. -/
def Shelf.make (y width height x : Int) : Shelf :=
  ⟨y, width, height, x, width⟩

/-- `Shelf.alloc(w, h, id)`: fails if `w > free` or `h > this.h`; otherwise
advances the cursor, reduces `free`, and returns the new bin
`new Bin(id, x, this.y, w, h, w, this.h)` (refcount defaults to 0). -/
def Shelf.alloc (s : Shelf) (w h : Int) (id : BinId) : Option (Shelf × Bin) :=
  if w > s.free ∨ h > s.h then none
  else some ({ s with x := s.x + w, free := s.free - w },
             ⟨id, s.x, s.y, w, h, w, s.h, 0⟩)

/-- `Shelf.resize(w)`: `free += w - this.w; this.w = w`. -/
def Shelf.resize (s : Shelf) (w : Int) : Shelf :=
  { s with free := s.free + (w - s.w), w := w }

/-- Result of `packOne`: a returned bin address or `null`, the
internal-consistency `throw`, or fuel exhaustion of the auto-resize
recursion (no JavaScript counterpart; the recursion is unbounded there). -/
inductive PackResult where
  | ok (bin : Option Nat)
  | internalError
  | fuelOut
deriving DecidableEq, Repr

/-- `true` exactly on the `throw new Error(...)` outcome. -/
def PackResult.isCrash : PackResult → Bool
  | .internalError => true
  | _ => false

/-- The `ShelfPack` class.  `store`/`nextAddr` are the explicit bin heap;
all other fields are the source's fields (`stats` values are `Option Int`
with `none` playing the role of `NaN`, which `| 0` coerces to `0`). -/
structure ShelfPack where
  autoResize : Bool
  shelves : List Shelf
  freebins : List Nat
  stats : List (Int × Option Int)
  bins : List (BinId × Nat)
  maxId : Int
  w : Int
  h : Int
  store : List (Nat × Bin)
  nextAddr : Nat
deriving DecidableEq, Repr

/-- `new ShelfPack(width, height, options)`. -/
def ShelfPack.make (width height : Int) (autoResize : Bool) : ShelfPack :=
  ⟨autoResize, [], [], [], [], 0, width, height, [], 0⟩

/-- Heap lookup. -/
def storeGet (p : ShelfPack) (a : Nat) : Option Bin :=
  (p.store.find? (fun e => e.1 = a)).map (·.2)

/-- Heap update of an existing address (mutation of a bin object). -/
def storeSet (s : List (Nat × Bin)) (a : Nat) (b : Bin) : List (Nat × Bin) :=
  s.map (fun e => if e.1 = a then (a, b) else e)

/-- Registry lookup `this.bins[k]` for an already-canonical key. -/
def regGet (l : List (BinId × Nat)) (k : BinId) : Option Nat :=
  (l.find? (fun e => e.1 = k)).map (·.2)

/-- Registry update `this.bins[k] = addr`.  Entry order inside the list is
not observable (the registry is only read through `regGet`), so the update
removes any entry with the key and appends the new one. -/
def regSet (l : List (BinId × Nat)) (k : BinId) (a : Nat) : List (BinId × Nat) :=
  (l.filter (fun e => ¬ e.1 = k)) ++ [(k, a)]

/-- Registry deletion `delete this.bins[k]`. -/
def regDel (l : List (BinId × Nat)) (k : BinId) : List (BinId × Nat) :=
  l.filter (fun e => ¬ e.1 = k)

/-- `getBin(id)`: returns the address registered under the id's key. -/
def ShelfPack.getBin (p : ShelfPack) (id : BinId) : Option Nat :=
  regGet p.bins (idKey id)

/-- Stats histogram read `this.stats[k]`: `none` = the key is absent. -/
def statsGet (st : List (Int × Option Int)) (k : Int) : Option (Option Int) :=
  (st.find? (fun e => e.1 = k)).map (·.2)

/-- Stats histogram write. -/
def statsSet (st : List (Int × Option Int)) (k : Int) (v : Option Int) :
    List (Int × Option Int) :=
  (st.filter (fun e => ¬ e.1 = k)) ++ [(k, v)]

/-- `(this.stats[k] | 0)`: `undefined` and `NaN` coerce to `0`. -/
def jsOrZero : Option (Option Int) → Int
  | none => 0
  | some none => 0
  | some (some v) => v

/-- `this.stats[k] = (this.stats[k] | 0) + 1`. -/
def statsIncr (st : List (Int × Option Int)) (k : Int) : List (Int × Option Int) :=
  statsSet st k (some (jsOrZero (statsGet st k) + 1))

/-- `this.stats[k]--`: decrementing an absent (or `NaN`) entry stores `NaN`. -/
def statsDecr (st : List (Int × Option Int)) (k : Int) : List (Int × Option Int) :=
  statsSet st k (match statsGet st k with
    | some (some v) => some (v - 1)
    | _ => none)

/-- `ref(bin)`: `++bin.refcount`; on the 0-to-1 transition records the bin's
height in the stats histogram.  Returns the new refcount. -/
def ShelfPack.ref (p : ShelfPack) (a : Nat) : Int × ShelfPack :=
  match storeGet p a with
  | none => (0, p)
  | some b =>
    let b' := { b with refcount := b.refcount + 1 }
    let p' := { p with store := storeSet p.store a b' }
    if b'.refcount = 1 then
      (b'.refcount, { p' with stats := statsIncr p'.stats b'.h })
    else
      (b'.refcount, p')

/-- `unref(bin)`: no-op at refcount 0; otherwise decrements, and on
reaching 0 decrements the stats entry, deletes the bin's id from the
registry and appends the bin to `freebins`. -/
def ShelfPack.unref (p : ShelfPack) (a : Nat) : Int × ShelfPack :=
  match storeGet p a with
  | none => (0, p)
  | some b =>
    if b.refcount = 0 then (0, p)
    else
      let b' := { b with refcount := b.refcount - 1 }
      let p' := { p with store := storeSet p.store a b' }
      if b'.refcount = 0 then
        (0, { p' with stats := statsDecr p'.stats b'.h,
                      bins := regDel p'.bins (idKey b'.id),
                      freebins := p'.freebins ++ [a] })
      else
        (b'.refcount, p')

/-- `allocFreebin(index, w, h, id)`: splices the free bin out of the pool,
builds `new Bin(id, bin.x, bin.y, w, h, bin.maxw, bin.maxh, 0)`, registers
it and refs it.  An out-of-range index would crash in JavaScript. -/
def ShelfPack.allocFreebin (p : ShelfPack) (index : Nat) (w h : Int) (id : BinId) :
    PackResult × ShelfPack :=
  match p.freebins[index]? with
  | none => (.internalError, p)
  | some a =>
    match storeGet p a with
    | none => (.internalError, p)
    | some bin =>
      let newBin : Bin := ⟨id, bin.x, bin.y, w, h, bin.maxw, bin.maxh, 0⟩
      let addr := p.nextAddr
      let p1 : ShelfPack :=
        { p with freebins := p.freebins.eraseIdx index,
                 store := p.store ++ [(addr, newBin)],
                 nextAddr := p.nextAddr + 1,
                 bins := regSet p.bins (idKey id) addr }
      (.ok (some addr), (p1.ref addr).2)

/-- `allocShelf(index, w, h, id)`: delegates to `Shelf.alloc`; a `null`
result is the `throw new Error("Failed to allocate bin on shelf.")`. -/
def ShelfPack.allocShelf (p : ShelfPack) (index : Nat) (w h : Int) (id : BinId) :
    PackResult × ShelfPack :=
  match p.shelves[index]? with
  | none => (.internalError, p)
  | some s =>
    match Shelf.alloc s w h id with
    | none => (.internalError, p)
    | some (s', bin) =>
      let addr := p.nextAddr
      let p1 : ShelfPack :=
        { p with shelves := p.shelves.set index s',
                 store := p.store ++ [(addr, bin)],
                 nextAddr := p.nextAddr + 1,
                 bins := regSet p.bins (idKey id) addr }
      (.ok (some addr), (p1.ref addr).2)

/-- The mutable `best` record of `packOne`: `freebin`/`shelf` are indices
with `-1` as "none", `waste` is `none` for the initial `Infinity`. -/
structure Best where
  freebin : Int
  shelf : Int
  waste : Option Int
deriving DecidableEq, Repr

/-- `waste < best.waste`, where `none` is `Infinity`. -/
def wasteLt (w : Int) : Option Int → Bool
  | none => true
  | some x => decide (w < x)

/-- Outcome of the free-bin scan loop: an early `return` on an exact
footprint match, or loop completion with the final `best`. -/
inductive FbScan where
  | exact (i : Nat)
  | done (best : Best)
deriving DecidableEq, Repr

/-- The free-bin loop of `packOne`: first exact `maxw`/`maxh` match returns
immediately; a bin too small in either dimension is skipped; otherwise the
minimum-waste candidate is tracked under strict `<`. -/
def fbScan (p : ShelfPack) (w h : Int) : List Nat → Nat → Best → FbScan
  | [], _, best => .done best
  | a :: rest, i, best =>
    match storeGet p a with
    | none => fbScan p w h rest (i + 1) best
    | some bin =>
      if h = bin.maxh ∧ w = bin.maxw then .exact i
      else if h > bin.maxh ∨ w > bin.maxw then fbScan p w h rest (i + 1) best
      else if h ≤ bin.maxh ∧ w ≤ bin.maxw then
        let waste := bin.maxw * bin.maxh - w * h
        if wasteLt waste best.waste then
          fbScan p w h rest (i + 1) { best with waste := some waste, freebin := (i : Int) }
        else fbScan p w h rest (i + 1) best
      else fbScan p w h rest (i + 1) best

/-- Outcome of the shelf scan loop: an early `return` on an exact height
match, or loop completion with the final `best` and the accumulated `y`. -/
inductive ShScan where
  | exact (i : Nat)
  | done (best : Best) (y : Int)
deriving DecidableEq, Repr

/-- The shelf loop of `packOne`: accumulates `y += shelf.h`; skips shelves
with too little free width; returns on an exact height match; skips
too-short shelves; otherwise tracks the minimum-waste candidate, clearing
any recorded free-bin candidate when it improves. -/
def shScan (w h : Int) : List Shelf → Nat → Int → Best → ShScan
  | [], _, y, best => .done best y
  | s :: rest, i, y, best =>
    let y' := y + s.h
    if w > s.free then shScan w h rest (i + 1) y' best
    else if h = s.h then .exact i
    else if h > s.h then shScan w h rest (i + 1) y' best
    else if h < s.h then
      let waste := (s.h - h) * w
      if wasteLt waste best.waste then
        shScan w h rest (i + 1) y' ⟨-1, (i : Int), some waste⟩
      else shScan w h rest (i + 1) y' best
    else shScan w h rest (i + 1) y' best

/-- The tail of `packOne` after both scans found nothing: add a new shelf
if it fits, otherwise auto-resize (doubling the smaller dimension, growing
width first on ties, and accommodating oversized requests) and retry, or
return `null`. -/
def packFallback (retry : ShelfPack → PackResult × ShelfPack) (w h : Int) (fid : BinId)
    (p : ShelfPack) (y : Int) : PackResult × ShelfPack :=
  if h ≤ p.h - y ∧ w ≤ p.w then
    let p' := { p with shelves := p.shelves ++ [Shelf.make y p.w h 0] }
    p'.allocShelf p.shelves.length w h fid
  else if p.autoResize then
    let h1 := p.h
    let w1 := p.w
    let w2 := if w1 ≤ h1 ∨ w > w1 then (max w w1) * 2 else w1
    let h2 := if h1 < w1 ∨ h > h1 then (max h h1) * 2 else h1
    retry { p with w := w2, h := h2, shelves := p.shelves.map (Shelf.resize · w2) }
  else (.ok none, p)

/-- The body of `packOne` after the identity stage: free-bin scan, shelf
scan, resolution of the recorded best candidate, then `packFallback`. -/
def packOneCore (retry : ShelfPack → PackResult × ShelfPack) (w h : Int) (fid : BinId)
    (p : ShelfPack) : PackResult × ShelfPack :=
  match fbScan p w h p.freebins 0 ⟨-1, -1, none⟩ with
  | .exact i => p.allocFreebin i w h fid
  | .done best =>
    match shScan w h p.shelves 0 0 best with
    | .exact j => p.allocShelf j w h fid
    | .done best y =>
      if best.freebin ≠ -1 then p.allocFreebin best.freebin.toNat w h fid
      else if best.shelf ≠ -1 then p.allocShelf best.shelf.toNat w h fid
      else packFallback retry w h fid p y

/-- `packOne(w, h, id?)`: if a supplied id is already registered, ref that
bin and return it; otherwise synthesize `++this.maxId` when no id was
supplied and run the scan/allocate/fallback body.  The auto-resize retry
passes the resolved id and consumes one unit of fuel. -/
def ShelfPack.packOne : Nat → Int → Int → Option BinId → ShelfPack → PackResult × ShelfPack
  | 0, _, _, _, p => (.fuelOut, p)
  | Nat.succ fuel, w, h, id?, p =>
    match id? with
    | some id =>
      match p.getBin id with
      | some a => (.ok (some a), (p.ref a).2)
      | none => packOneCore (ShelfPack.packOne fuel w h (some id)) w h id p
    | none =>
      let p' := { p with maxId := p.maxId + 1 }
      let fid := BinId.num p'.maxId
      packOneCore (ShelfPack.packOne fuel w h (some fid)) w h fid p'

/-- `resize(w, h)`: sets the container size and propagates the width to
every shelf (the source also returns `true`, which no caller uses). -/
def ShelfPack.resize (p : ShelfPack) (w h : Int) : ShelfPack :=
  { p with w := w, h := h, shelves := p.shelves.map (Shelf.resize · w) }

/-- Sum of shelf heights (the `h2` accumulator of `shrink` and the running
`y` of the shelf scan). -/
def totalShelfH (l : List Shelf) : Int :=
  l.foldl (fun acc s => acc + s.h) 0

/-- Max over shelves of consumed width `shelf.w - shelf.free` (the `w2`
accumulator of `shrink`). -/
def maxUsedW (l : List Shelf) : Int :=
  l.foldl (fun acc s => max (s.w - s.free) acc) 0

/-- `shrink()`: with at least one shelf, resize down to the used bounding
box (max consumed width, total shelf height). -/
def ShelfPack.shrink (p : ShelfPack) : ShelfPack :=
  if p.shelves.length > 0 then
    p.resize (maxUsedW p.shelves) (totalShelfH p.shelves)
  else p

/-- `clear()`: resets shelves, free bins, stats, registry and the id
counter (the container size is kept, and caller-held bins survive). -/
def ShelfPack.clear (p : ShelfPack) : ShelfPack :=
  { p with shelves := [], freebins := [], stats := [], bins := [], maxId := 0 }

/-- An input record for `pack`: optional `w`/`h`/`width`/`height`/`id`
fields, plus whether the record has own properties `x`/`y` (the `'x' in`
test) and their values. -/
structure InputItem where
  w : Option Int
  h : Option Int
  width : Option Int
  height : Option Int
  hasX : Bool
  hasY : Bool
  x : Int
  y : Int
  id : Option BinId
deriving DecidableEq, Repr

/-- JavaScript `a || b` on optional numbers: `undefined` and `0` are falsy. -/
def jsOr (a b : Option Int) : Option Int :=
  match a with
  | some v => if v ≠ 0 then some v else b
  | none => b

/-- The loop of `pack`: for each item, read `binsCopy[i].w || binsCopy[i].w`
(the source reads the `w` field twice; `width`/`height` are never read) and
likewise for `h`; if both are numbers, `packOne`; on success, only when
`options.inPlace` is set: write `x`/`y`/`id` back onto the record when it
already has own `x` and `y` properties, and push the allocation onto
`results`.  Returns (results, updated records, state). -/
def ShelfPack.packLoop (fuel : Nat) (inPlace : Bool) :
    List InputItem → ShelfPack → List Nat × List InputItem × ShelfPack
  | [], p => ([], [], p)
  | it :: rest, p =>
    match jsOr it.w it.w, jsOr it.h it.h with
    | some wv, some hv =>
      match ShelfPack.packOne fuel wv hv it.id p with
      | (.ok (some a), p') =>
        if inPlace then
          let it' :=
            if it.hasX ∧ it.hasY then
              match storeGet p' a with
              | some b => { it with x := b.x, y := b.y, id := some b.id }
              | none => it
            else it
          let r := ShelfPack.packLoop fuel inPlace rest p'
          (a :: r.1, it' :: r.2.1, r.2.2)
        else
          let r := ShelfPack.packLoop fuel inPlace rest p'
          (r.1, it :: r.2.1, r.2.2)
      | (_, p') =>
        let r := ShelfPack.packLoop fuel inPlace rest p'
        (r.1, it :: r.2.1, r.2.2)
    | _, _ =>
      let r := ShelfPack.packLoop fuel inPlace rest p
      (r.1, it :: r.2.1, r.2.2)

/-- `pack(bins, options)`: the loop above followed by one `shrink()`. -/
def ShelfPack.pack (fuel : Nat) (items : List InputItem) (inPlace : Bool)
    (p : ShelfPack) : List Nat × List InputItem × ShelfPack :=
  let r := ShelfPack.packLoop fuel inPlace items p
  (r.1, r.2.1, r.2.2.shrink)

/-! ## Rectangles and overlap -/

/-- An axis-aligned rectangle, as the half-open box
`[x, x + w) × [y, y + h)` (empty when `w ≤ 0` or `h ≤ 0`). -/
structure Rect where
  x : Int
  y : Int
  w : Int
  h : Int
deriving DecidableEq, Repr

/-- The rectangle `(x, y, w, h)` of a bin (its active size). -/
def binRect (b : Bin) : Rect := ⟨b.x, b.y, b.w, b.h⟩

/-- The footprint rectangle `(x, y, maxw, maxh)` of a bin. -/
def binFootprint (b : Bin) : Rect := ⟨b.x, b.y, b.maxw, b.maxh⟩

/-- Two rectangles overlap when the half-open boxes share a point. -/
def RectsOverlap (r1 r2 : Rect) : Prop :=
  max r1.x r2.x < min (r1.x + r1.w) (r2.x + r2.w) ∧
  max r1.y r2.y < min (r1.y + r1.h) (r2.y + r2.h)

instance (r1 r2 : Rect) : Decidable (RectsOverlap r1 r2) := by
  unfold RectsOverlap; infer_instance

/-! ## Concrete executions used by the counterexamples and bug witnesses -/

/-- Fresh 64×64 packer, growth disabled. -/
def p64 : ShelfPack := ShelfPack.make 64 64 false

/-- `packOne(5,5,"a")` on a fresh packer: one 5×5 bin at the origin. -/
def pa : ShelfPack := (ShelfPack.packOne 2 5 5 (some (.str "a")) p64).2

/-- ... then `clear()` and `packOne(5,5,"b")`: the caller-held bin `"a"`
still has refcount 1 while the new bin `"b"` occupies the same rectangle. -/
def cexClear : ShelfPack := (ShelfPack.packOne 2 5 5 (some (.str "b")) pa.clear).2

/-- `packOne(5,5,"a"); packOne(59,5,"b"); packOne(64,-3,"c"); packOne(5,5,"d")`:
the negative-height shelf makes the running `y` go back down, so shelf 2 is
created at `y = 2` inside shelf 0's band and `"d"` overlaps `"a"`. -/
def cexNegH : ShelfPack :=
  (ShelfPack.packOne 2 5 5 (some (.str "d"))
    (ShelfPack.packOne 2 64 (-3) (some (.str "c"))
      (ShelfPack.packOne 2 59 5 (some (.str "b")) pa).2).2).2

/-- `packOne(5,5,"a"); unref; ref`: the bin is back to refcount 1 but still
sits in the free pool. -/
def cexRefFree : ShelfPack := (ShelfPack.ref (ShelfPack.unref pa 0).2 0).2

/-- ... then `packOne(5,5,"b")` re-allocates the same footprint while the
re-ref'd bin `"a"` still has refcount 1. -/
def cexRefFree2 : ShelfPack := (ShelfPack.packOne 2 5 5 (some (.str "b")) cexRefFree).2

/-- `packOne(5,5,"a"); clear; packOne(5,5,"b"); unref(a); packOne(5,5,"c")`:
the stale unref pushes the pre-clear bin into the free pool, so `"c"` is
carved out of the rectangle `"b"` occupies. -/
def cexStaleUnref : ShelfPack :=
  (ShelfPack.packOne 2 5 5 (some (.str "c"))
    (ShelfPack.unref (ShelfPack.packOne 2 5 5 (some (.str "b")) pa.clear).2 0).2).2

/-- `packOne(5,5,"a"); unref; packOne(7,7,"a")`: the request does not fit
the freed footprint, so a fresh bin is registered under `"a"` while the
free pool still holds a bin whose id field is `"a"`. -/
def cexFreedId : ShelfPack :=
  (ShelfPack.packOne 2 7 7 (some (.str "a")) (ShelfPack.unref pa 0).2).2

/-- The `pack` run of the inPlace round-trip scenario:
`pack([{w:10,h:10}], {inPlace:true})` on a fresh 64×64 packer. -/
def packInPlaceRun : List Nat × List InputItem × ShelfPack :=
  ShelfPack.pack 2 [⟨some 10, some 10, none, none, false, false, 0, 0, none⟩] true p64

/-- The same batch without `inPlace`: `pack([{w:10,h:10}], {})`. -/
def packPlainRun : List Nat × List InputItem × ShelfPack :=
  ShelfPack.pack 2 [⟨some 10, some 10, none, none, false, false, 0, 0, none⟩] false p64

/-! ## Specification-side selection policy (for the refinement claim)

These definitions follow the specification's description of `packOne`'s
selection policy — exact free bin first, then exact-height shelf, then the
single best-waste slot shared between partial-fit free bins and taller
shelves — to be compared with the single-pass scans of the source. -/

/-- Index of the first list element satisfying `q`, counting from `i`. -/
def firstIdxFrom (q : α → Bool) : List α → Nat → Option Nat
  | [], _ => none
  | a :: rest, i => if q a then some i else firstIdxFrom q rest (i + 1)

/-- "A free bin's footprint exactly equals `(w, h)` via `maxw`/`maxh`". -/
def fbExactP (p : ShelfPack) (w h : Int) (a : Nat) : Bool :=
  match storeGet p a with
  | some b => decide (h = b.maxh ∧ w = b.maxw)
  | none => false

/-- "A shelf with sufficient free width whose height is exactly `h`". -/
def shExactP (w h : Int) (s : Shelf) : Bool :=
  decide (w ≤ s.free ∧ h = s.h)

/-- Modelled from the spec: the first free bin (in pool order) whose
footprint exactly matches `(w, h)`. -/
def specExactFreebin (p : ShelfPack) (w h : Int) : Option Nat :=
  firstIdxFrom (fbExactP p w h) p.freebins 0

/-- Modelled from the spec: the first shelf (in creation order) with
sufficient free width and height exactly `h`. -/
def specExactShelf (w h : Int) (l : List Shelf) : Option Nat :=
  firstIdxFrom (shExactP w h) l 0

/-- Modelled from the spec: fold the partial-fit free bins (in pool order)
into the shared best slot, keeping the strictly smaller waste
(`maxw*maxh - w*h`), first seen winning ties. -/
def specFbBest (p : ShelfPack) (w h : Int) : List Nat → Nat → Best → Best
  | [], _, best => best
  | a :: rest, i, best =>
    let best' :=
      match storeGet p a with
      | none => best
      | some bin =>
        if w ≤ bin.maxw ∧ h ≤ bin.maxh then
          let waste := bin.maxw * bin.maxh - w * h
          if wasteLt waste best.waste then
            { best with waste := some waste, freebin := (i : Int) }
          else best
        else best
    specFbBest p w h rest (i + 1) best'

/-- Modelled from the spec: fold the taller shelves with enough free width
into the shared best slot; a shelf candidate with strictly smaller waste
`(shelf.h - h) * w` clears any recorded free-bin candidate, and a
non-improving shelf candidate never displaces it. -/
def specShBest (w h : Int) : List Shelf → Nat → Best → Best
  | [], _, best => best
  | s :: rest, i, best =>
    let best' :=
      if w ≤ s.free ∧ h < s.h then
        let waste := (s.h - h) * w
        if wasteLt waste best.waste then ⟨-1, (i : Int), some waste⟩ else best
      else best
    specShBest w h rest (i + 1) best'

/-- Modelled from the spec: the winner of the shared best-waste slot. -/
def specBest (p : ShelfPack) (w h : Int) : Best :=
  specShBest w h p.shelves 0 (specFbBest p w h p.freebins 0 ⟨-1, -1, none⟩)

/-- The staged selection policy described by the specification:
1. first exact-footprint free bin, allocated immediately;
2. else first exact-height shelf with enough free width;
3. else the best-waste winner;
otherwise fall through to new-shelf creation / auto-resize / failure. -/
def stagedCore (retry : ShelfPack → PackResult × ShelfPack) (w h : Int) (fid : BinId)
    (p : ShelfPack) : PackResult × ShelfPack :=
  match specExactFreebin p w h with
  | some i => p.allocFreebin i w h fid
  | none =>
    match specExactShelf w h p.shelves with
    | some j => p.allocShelf j w h fid
    | none =>
      let best := specBest p w h
      if best.freebin ≠ -1 then p.allocFreebin best.freebin.toNat w h fid
      else if best.shelf ≠ -1 then p.allocShelf best.shelf.toNat w h fid
      else packFallback retry w h fid p (totalShelfH p.shelves)

/-! ## Iterated unref, reachability and the state invariants -/

/-- `n` successive `unref` calls on the same bin. -/
def unrefN : Nat → Nat → ShelfPack → ShelfPack
  | 0, _, p => p
  | Nat.succ n, a, p => unrefN n a (p.unref a).2

/-- Addresses registered in the id registry. -/
def regAddrs (p : ShelfPack) : List Nat :=
  p.bins.map Prod.snd

/-- The addresses the packer structure can still hand out: registered bins
and the free pool. -/
def liveAddrs (p : ShelfPack) : List Nat :=
  regAddrs p ++ p.freebins

/-- States reachable through the public operations, under the discipline
that `ref` is applied only to bins currently in the registry and `unref`
only to registry bins or bins already at refcount 0.  With `d = true`,
`pack`/`packOne` additionally receive nonnegative sizes.  (`getBin` is
pure and needs no constructor.) -/
inductive Reach : Bool → ShelfPack → Prop
  | init (d : Bool) (width height : Int) (ar : Bool) :
      Reach d (ShelfPack.make width height ar)
  | packOne (d : Bool) (fuel : Nat) (w h : Int) (id? : Option BinId) (p : ShelfPack)
      (hp : Reach d p)
      (hw : d = true → 0 ≤ w) (hh : d = true → 0 ≤ h) :
      Reach d (ShelfPack.packOne fuel w h id? p).2
  | pack (d : Bool) (fuel : Nat) (items : List InputItem) (inPlace : Bool) (p : ShelfPack)
      (hp : Reach d p)
      (hitems : d = true → ∀ it ∈ items, ∀ wv hv : Int,
        jsOr it.w it.w = some wv → jsOr it.h it.h = some hv → 0 ≤ wv ∧ 0 ≤ hv) :
      Reach d (ShelfPack.pack fuel items inPlace p).2.2
  | ref (d : Bool) (a : Nat) (p : ShelfPack)
      (hp : Reach d p)
      (ha : a ∈ regAddrs p) :
      Reach d (p.ref a).2
  | unref (d : Bool) (a : Nat) (p : ShelfPack)
      (hp : Reach d p)
      (ha : a ∈ regAddrs p ∨ ∀ b, storeGet p a = some b → b.refcount = 0) :
      Reach d (p.unref a).2
  | resize (d : Bool) (w h : Int) (p : ShelfPack) (hp : Reach d p) :
      Reach d (p.resize w h)
  | shrink (d : Bool) (p : ShelfPack) (hp : Reach d p) :
      Reach d p.shrink
  | clear (d : Bool) (p : ShelfPack) (hp : Reach d p) :
      Reach d p.clear

/-- Registry/free-pool invariant: every registry entry points to a stored
bin with refcount ≥ 1 whose id has the entry's key, registry keys and
addresses are distinct, the free pool is duplicate-free and disjoint from
the registry, every free bin is stored with refcount 0, and every stored
address is below the allocation counter. -/
structure InvR (p : ShelfPack) : Prop where
  regStore : ∀ e ∈ p.bins, ∃ b, storeGet p e.2 = some b ∧
      idKey b.id = e.1 ∧ 1 ≤ b.refcount
  regKeys : (p.bins.map Prod.fst).Nodup
  regNodup : (regAddrs p).Nodup
  freeNodup : p.freebins.Nodup
  regFreeDisj : ∀ x ∈ regAddrs p, x ∉ p.freebins
  freeStore : ∀ a ∈ p.freebins, ∃ b, storeGet p a = some b ∧ b.refcount = 0
  storeDom : ∀ a, (storeGet p a).isSome → a < p.nextAddr

/-- The shelf list tiles the container downward from `y0`: each shelf
starts where the previous one ended and has nonnegative height. -/
inductive Tiled : Int → List Shelf → Prop
  | nil (y0 : Int) : Tiled y0 []
  | cons (y0 : Int) (s : Shelf) (rest : List Shelf)
      (hy : s.y = y0) (hh : 0 ≤ s.h)
      (hrest : Tiled (y0 + s.h) rest) :
      Tiled y0 (s :: rest)

/-- A bin sits on one of the shelves: same `y`, footprint height equal to
the shelf height, footprint x-interval inside the consumed part of the
shelf (left of the cursor), and active size within the footprint. -/
def BinOnShelf (shelves : List Shelf) (b : Bin) : Prop :=
  ∃ (k : Nat) (s : Shelf), shelves[k]? = some s ∧ b.y = s.y ∧ b.maxh = s.h ∧
    b.x + b.maxw ≤ s.x ∧ b.w ≤ b.maxw ∧ b.h ≤ b.maxh

/-- Geometric invariant: shelves tile the container from `y = 0`, every
live bin sits on a shelf, and live footprints are pairwise disjoint. -/
structure InvG (p : ShelfPack) : Prop where
  tiled : Tiled 0 p.shelves
  onShelf : ∀ a ∈ liveAddrs p, ∀ b, storeGet p a = some b →
      BinOnShelf p.shelves b
  disj : ∀ a1 ∈ liveAddrs p, ∀ a2 ∈ liveAddrs p, a1 ≠ a2 →
      ∀ b1 b2, storeGet p a1 = some b1 → storeGet p a2 = some b2 →
        ¬ RectsOverlap (binFootprint b1) (binFootprint b2)

/-- A recorded free-bin candidate is valid: either absent (`-1`) or a real
pool index whose stored bin fits the request. -/
def FbBestOK (p : ShelfPack) (w h : Int) (best : Best) : Prop :=
  best.freebin = -1 ∨
    ∃ a bin, p.freebins[best.freebin.toNat]? = some a ∧ storeGet p a = some bin ∧
      w ≤ bin.maxw ∧ h ≤ bin.maxh

/-- A recorded shelf candidate is valid: either absent (`-1`) or a real
shelf index with enough free width and height. -/
def ShBestOK (shelves : List Shelf) (w h : Int) (best : Best) : Prop :=
  best.shelf = -1 ∨
    ∃ s, shelves[best.shelf.toNat]? = some s ∧ w ≤ s.free ∧ h ≤ s.h

/-- The amended no-overlap property: bins reachable through the registry
under distinct keys occupy disjoint rectangles. -/
def NoActiveOverlap (p : ShelfPack) : Prop :=
  ∀ e1 ∈ p.bins, ∀ e2 ∈ p.bins, e1.1 ≠ e2.1 →
    ∀ b1 b2, storeGet p e1.2 = some b1 → storeGet p e2.2 = some b2 →
      ¬ RectsOverlap (binRect b1) (binRect b2)

/-- The amended registry/free-pool property of C3: registered bins are
active (refcount ≥ 1, one bin per id), and pooled bins are free. -/
def RegistryAndPoolSound (p : ShelfPack) : Prop :=
  (∀ e ∈ p.bins, ∃ b, storeGet p e.2 = some b ∧ 1 ≤ b.refcount) ∧
  (p.bins.map Prod.fst).Nodup ∧
  (∀ a ∈ p.freebins, ∀ b, storeGet p a = some b → b.refcount = 0)

/-- C7: on a fresh 8×8 container with autoResize enabled, `packOne(10,10)`
grows the container to 20×20 (width to `max(10,8)*2 = 20`, then height
likewise) and the retry succeeds, returning a bin placed at `(0, 0)`. -/
theorem c7_autoresize_8x8 :
    (ShelfPack.packOne 2 10 10 none (ShelfPack.make 8 8 true)).1 =
        PackResult.ok (some 0) ∧
    (ShelfPack.packOne 2 10 10 none (ShelfPack.make 8 8 true)).2.w = 20 ∧
    (ShelfPack.packOne 2 10 10 none (ShelfPack.make 8 8 true)).2.h = 20 ∧
    storeGet (ShelfPack.packOne 2 10 10 none (ShelfPack.make 8 8 true)).2 0 =
      some ⟨.num 1, 0, 0, 10, 10, 10, 10, 1⟩ :=
  ⟨rfl, rfl, rfl, rfl⟩

/-- C4 (failing input): `pack([{w:10,h:10}], {inPlace:true})` on a fresh
packer allocates a bin with `x = 0`, `y = 0`, `id = 1`, but the caller's
input record is returned untouched — the write-back is guarded by
`'x' in item && 'y' in item`, which a plain `{w, h}` record fails — so the
record's `x`, `y`, `id` do not match the returned bin. -/
theorem c4_inplace_writeback_skipped :
    packInPlaceRun.1 = [0] ∧
    storeGet packInPlaceRun.2.2 0 = some ⟨.num 1, 0, 0, 10, 10, 10, 10, 1⟩ ∧
    packInPlaceRun.2.1 = [⟨some 10, some 10, none, none, false, false, 0, 0, none⟩] :=
  ⟨rfl, rfl, rfl⟩

/-- C5 (failing input): `pack([{w:10,h:10}], {})` returns the empty array
even though `packOne` succeeded — the bin is registered under id 1 and the
final `shrink()` reduced the container to 10×10 — because `results.push`
sits inside the `options.inPlace` branch. -/
theorem c5_results_dropped_without_inplace :
    packPlainRun.1 = [] ∧
    packPlainRun.2.2.bins = [(.num 1, 0)] ∧
    storeGet packPlainRun.2.2 0 = some ⟨.num 1, 0, 0, 10, 10, 10, 10, 1⟩ ∧
    packPlainRun.2.2.w = 10 ∧ packPlainRun.2.2.h = 10 :=
  ⟨rfl, rfl, rfl, rfl, rfl⟩

/-- C1 is false as stated.  Four reachable scenarios:
(a) after `packOne(5,5,"a"); clear(); packOne(5,5,"b")` the caller-held
bin and the new bin both have refcount 1 and identical rectangles;
(b) `packOne` with a negative height creates a shelf whose running `y`
goes back down, and two registered bins overlap;
(c) `unref` then `ref` leaves a refcount-1 bin in the free pool and
`packOne` re-allocates its footprint to a second refcount-1 bin;
(d) after `clear()`, unref of a stale bin feeds its pre-clear footprint to
the free pool and two registered bins overlap. -/
theorem c1_counterexample :
    ((storeGet cexClear 0).map (fun b => (b.refcount, binRect b)) =
        some (1, ⟨0, 0, 5, 5⟩) ∧
     (storeGet cexClear 1).map (fun b => (b.refcount, binRect b)) =
        some (1, ⟨0, 0, 5, 5⟩) ∧
     RectsOverlap ⟨0, 0, 5, 5⟩ ⟨0, 0, 5, 5⟩) ∧
    (cexNegH.bins = [(.str "a", 0), (.str "b", 1), (.str "c", 2), (.str "d", 3)] ∧
     (storeGet cexNegH 0).map (fun b => (b.refcount, binRect b)) =
        some (1, ⟨0, 0, 5, 5⟩) ∧
     (storeGet cexNegH 3).map (fun b => (b.refcount, binRect b)) =
        some (1, ⟨0, 2, 5, 5⟩) ∧
     RectsOverlap ⟨0, 0, 5, 5⟩ ⟨0, 2, 5, 5⟩) ∧
    ((storeGet cexRefFree2 0).map (fun b => (b.refcount, binRect b)) =
        some (1, ⟨0, 0, 5, 5⟩) ∧
     (storeGet cexRefFree2 1).map (fun b => (b.refcount, binRect b)) =
        some (1, ⟨0, 0, 5, 5⟩)) ∧
    (cexStaleUnref.bins = [(.str "b", 1), (.str "c", 2)] ∧
     (storeGet cexStaleUnref 1).map (fun b => (b.refcount, binRect b)) =
        some (1, ⟨0, 0, 5, 5⟩) ∧
     (storeGet cexStaleUnref 2).map (fun b => (b.refcount, binRect b)) =
        some (1, ⟨0, 0, 5, 5⟩)) :=
  ⟨⟨rfl, rfl, by decide⟩, ⟨by decide, by decide, by decide, by decide⟩,
   ⟨rfl, rfl⟩, ⟨rfl, rfl, rfl⟩⟩

/-- C3 is false as stated.  (a) After `packOne(5,5,"a"); unref;
packOne(7,7,"a")` the id `"a"` is registered (to a fresh bin) while the
free pool holds a bin whose id field is `"a"`: an id is simultaneously in
the registry and associated with a free-pool bin.  (b) After `packOne;
unref; ref` the free pool holds a bin with refcount 1. -/
theorem c3_counterexample :
    (cexFreedId.bins = [(.str "a", 1)] ∧
     cexFreedId.freebins = [0] ∧
     (storeGet cexFreedId 0).map (fun b => (b.id, b.refcount)) =
        some (.str "a", 0)) ∧
    (cexRefFree.freebins = [0] ∧
     (storeGet cexRefFree 0).map Bin.refcount = some 1) :=
  ⟨⟨rfl, rfl, rfl⟩, ⟨rfl, rfl⟩⟩

/-! ## C2: the single-pass scans implement the staged selection policy -/

theorem totalShelfH_foldl (l : List Shelf) (acc : Int) :
    l.foldl (fun acc s => acc + s.h) acc = acc + totalShelfH l := by
  induction l generalizing acc with
  | nil => simp [totalShelfH]
  | cons t rest ih =>
    rw [List.foldl_cons, ih]
    have h2 : totalShelfH (t :: rest) = 0 + t.h + totalShelfH rest := by
      unfold totalShelfH
      rw [List.foldl_cons, ih]
      rfl
    rw [h2]
    ring

theorem totalShelfH_cons (s : Shelf) (rest : List Shelf) :
    totalShelfH (s :: rest) = s.h + totalShelfH rest := by
  have h2 : totalShelfH (s :: rest) = 0 + s.h + totalShelfH rest := by
    unfold totalShelfH
    rw [List.foldl_cons, totalShelfH_foldl]
    rfl
  rw [h2]
  ring

theorem firstIdxFrom_cons_true {q : α → Bool} {a : α} (rest : List α) (i : Nat)
    (hq : q a = true) : firstIdxFrom q (a :: rest) i = some i := by
  simp [firstIdxFrom, hq]

theorem firstIdxFrom_cons_false {q : α → Bool} {a : α} (rest : List α) (i : Nat)
    (hq : q a = false) : firstIdxFrom q (a :: rest) i = firstIdxFrom q rest (i + 1) := by
  simp [firstIdxFrom, hq]

theorem fbScan_cons_none {p : ShelfPack} {w h : Int} {a : Nat} (rest : List Nat)
    (i : Nat) (best : Best) (hsg : storeGet p a = none) :
    fbScan p w h (a :: rest) i best = fbScan p w h rest (i + 1) best := by
  simp [fbScan, hsg]

theorem fbScan_cons_exact {p : ShelfPack} {w h : Int} {a : Nat} {bin : Bin}
    (rest : List Nat) (i : Nat) (best : Best) (hsg : storeGet p a = some bin)
    (hex : h = bin.maxh ∧ w = bin.maxw) :
    fbScan p w h (a :: rest) i best = .exact i := by
  simp only [fbScan, hsg]
  rw [if_pos hex]

theorem fbScan_cons_skip {p : ShelfPack} {w h : Int} {a : Nat} {bin : Bin}
    (rest : List Nat) (i : Nat) (best : Best) (hsg : storeGet p a = some bin)
    (hne : ¬ (h = bin.maxh ∧ w = bin.maxw)) (hskip : h > bin.maxh ∨ w > bin.maxw) :
    fbScan p w h (a :: rest) i best = fbScan p w h rest (i + 1) best := by
  simp only [fbScan, hsg]
  rw [if_neg hne, if_pos hskip]

theorem fbScan_cons_fit {p : ShelfPack} {w h : Int} {a : Nat} {bin : Bin}
    (rest : List Nat) (i : Nat) (best : Best) (hsg : storeGet p a = some bin)
    (hne : ¬ (h = bin.maxh ∧ w = bin.maxw)) (hnskip : ¬ (h > bin.maxh ∨ w > bin.maxw)) :
    fbScan p w h (a :: rest) i best =
      (if wasteLt (bin.maxw * bin.maxh - w * h) best.waste then
        fbScan p w h rest (i + 1)
          { best with waste := some (bin.maxw * bin.maxh - w * h), freebin := (i : Int) }
      else fbScan p w h rest (i + 1) best) := by
  have hfit : h ≤ bin.maxh ∧ w ≤ bin.maxw := by omega
  simp only [fbScan, hsg]
  rw [if_neg hne, if_neg hnskip, if_pos hfit]

theorem specFbBest_cons_none {p : ShelfPack} {w h : Int} {a : Nat} (rest : List Nat)
    (i : Nat) (best : Best) (hsg : storeGet p a = none) :
    specFbBest p w h (a :: rest) i best = specFbBest p w h rest (i + 1) best := by
  simp [specFbBest, hsg]

theorem specFbBest_cons_nofit {p : ShelfPack} {w h : Int} {a : Nat} {bin : Bin}
    (rest : List Nat) (i : Nat) (best : Best) (hsg : storeGet p a = some bin)
    (hnf : ¬ (w ≤ bin.maxw ∧ h ≤ bin.maxh)) :
    specFbBest p w h (a :: rest) i best = specFbBest p w h rest (i + 1) best := by
  simp only [specFbBest, hsg]
  rw [if_neg hnf]

theorem specFbBest_cons_fit {p : ShelfPack} {w h : Int} {a : Nat} {bin : Bin}
    (rest : List Nat) (i : Nat) (best : Best) (hsg : storeGet p a = some bin)
    (hf : w ≤ bin.maxw ∧ h ≤ bin.maxh) :
    specFbBest p w h (a :: rest) i best =
      specFbBest p w h rest (i + 1)
        (if wasteLt (bin.maxw * bin.maxh - w * h) best.waste then
          { best with waste := some (bin.maxw * bin.maxh - w * h), freebin := (i : Int) }
        else best) := by
  simp only [specFbBest, hsg]
  rw [if_pos hf]

theorem fbScan_eq (p : ShelfPack) (w h : Int) (l : List Nat) (i : Nat) (best : Best) :
    fbScan p w h l i best =
      match firstIdxFrom (fbExactP p w h) l i with
      | some j => .exact j
      | none => .done (specFbBest p w h l i best) := by
  induction l generalizing i best with
  | nil => rfl
  | cons a rest ih =>
    cases hsg : storeGet p a with
    | none =>
      have hq : fbExactP p w h a = false := by simp [fbExactP, hsg]
      rw [fbScan_cons_none rest i best hsg, firstIdxFrom_cons_false rest i hq,
        specFbBest_cons_none rest i best hsg]
      exact ih (i + 1) best
    | some bin =>
      by_cases hex : h = bin.maxh ∧ w = bin.maxw
      · have hq : fbExactP p w h a = true := by simp [fbExactP, hsg, hex]
        rw [fbScan_cons_exact rest i best hsg hex, firstIdxFrom_cons_true rest i hq]
      · have hq : fbExactP p w h a = false := by
          simp only [fbExactP, hsg]
          exact decide_eq_false hex
        rw [firstIdxFrom_cons_false rest i hq]
        by_cases hskip : h > bin.maxh ∨ w > bin.maxw
        · have hnf : ¬ (w ≤ bin.maxw ∧ h ≤ bin.maxh) := by omega
          rw [fbScan_cons_skip rest i best hsg hex hskip,
            specFbBest_cons_nofit rest i best hsg hnf]
          exact ih (i + 1) best
        · have hf : w ≤ bin.maxw ∧ h ≤ bin.maxh := by omega
          rw [fbScan_cons_fit rest i best hsg hex hskip,
            specFbBest_cons_fit rest i best hsg hf]
          by_cases hw : wasteLt (bin.maxw * bin.maxh - w * h) best.waste = true
          · rw [if_pos hw, if_pos hw]
            exact ih (i + 1) _
          · rw [if_neg hw, if_neg hw]
            exact ih (i + 1) best

theorem shScan_cons_skipw {w h : Int} {s : Shelf} (rest : List Shelf) (i : Nat)
    (y : Int) (best : Best) (hwf : w > s.free) :
    shScan w h (s :: rest) i y best = shScan w h rest (i + 1) (y + s.h) best := by
  simp only [shScan]
  rw [if_pos hwf]

theorem shScan_cons_exact {w h : Int} {s : Shelf} (rest : List Shelf) (i : Nat)
    (y : Int) (best : Best) (hwf : ¬ w > s.free) (hex : h = s.h) :
    shScan w h (s :: rest) i y best = .exact i := by
  simp only [shScan]
  rw [if_neg hwf, if_pos hex]

theorem shScan_cons_skiph {w h : Int} {s : Shelf} (rest : List Shelf) (i : Nat)
    (y : Int) (best : Best) (hwf : ¬ w > s.free) (hex : ¬ h = s.h) (hsk : h > s.h) :
    shScan w h (s :: rest) i y best = shScan w h rest (i + 1) (y + s.h) best := by
  simp only [shScan]
  rw [if_neg hwf, if_neg hex, if_pos hsk]

theorem shScan_cons_fit {w h : Int} {s : Shelf} (rest : List Shelf) (i : Nat)
    (y : Int) (best : Best) (hwf : ¬ w > s.free) (hex : ¬ h = s.h) (hsk : ¬ h > s.h) :
    shScan w h (s :: rest) i y best =
      (if wasteLt ((s.h - h) * w) best.waste then
        shScan w h rest (i + 1) (y + s.h) ⟨-1, (i : Int), some ((s.h - h) * w)⟩
      else shScan w h rest (i + 1) (y + s.h) best) := by
  have hlt : h < s.h := by omega
  simp only [shScan]
  rw [if_neg hwf, if_neg hex, if_neg hsk, if_pos hlt]

theorem specShBest_cons_nocand {w h : Int} {s : Shelf} (rest : List Shelf) (i : Nat)
    (best : Best) (hnc : ¬ (w ≤ s.free ∧ h < s.h)) :
    specShBest w h (s :: rest) i best = specShBest w h rest (i + 1) best := by
  simp only [specShBest]
  rw [if_neg hnc]

theorem specShBest_cons_cand {w h : Int} {s : Shelf} (rest : List Shelf) (i : Nat)
    (best : Best) (hc : w ≤ s.free ∧ h < s.h) :
    specShBest w h (s :: rest) i best =
      specShBest w h rest (i + 1)
        (if wasteLt ((s.h - h) * w) best.waste then ⟨-1, (i : Int), some ((s.h - h) * w)⟩
         else best) := by
  simp only [specShBest]
  rw [if_pos hc]

theorem shScan_eq (w h : Int) (l : List Shelf) (i : Nat) (y : Int) (best : Best) :
    shScan w h l i y best =
      match firstIdxFrom (shExactP w h) l i with
      | some j => .exact j
      | none => .done (specShBest w h l i best) (y + totalShelfH l) := by
  induction l generalizing i y best with
  | nil => simp [shScan, firstIdxFrom, specShBest, totalShelfH]
  | cons s rest ih =>
    by_cases hwf : w > s.free
    · have hq : shExactP w h s = false := by
        simp only [shExactP]
        apply decide_eq_false
        omega
      have hnc : ¬ (w ≤ s.free ∧ h < s.h) := by omega
      rw [shScan_cons_skipw rest i y best hwf, firstIdxFrom_cons_false rest i hq,
        specShBest_cons_nocand rest i best hnc, ih (i + 1) (y + s.h) best,
        totalShelfH_cons]
      cases firstIdxFrom (shExactP w h) rest (i + 1) with
      | some j => rfl
      | none =>
        show ShScan.done _ (y + s.h + totalShelfH rest) =
          ShScan.done _ (y + (s.h + totalShelfH rest))
        rw [add_assoc]
    · by_cases hex : h = s.h
      · have hq : shExactP w h s = true := by
          simp only [shExactP]
          apply decide_eq_true
          omega
        rw [shScan_cons_exact rest i y best hwf hex, firstIdxFrom_cons_true rest i hq]
      · have hq : shExactP w h s = false := by
          simp only [shExactP]
          apply decide_eq_false
          omega
        rw [firstIdxFrom_cons_false rest i hq]
        by_cases hsk : h > s.h
        · have hnc : ¬ (w ≤ s.free ∧ h < s.h) := by omega
          rw [shScan_cons_skiph rest i y best hwf hex hsk,
            specShBest_cons_nocand rest i best hnc, ih (i + 1) (y + s.h) best,
            totalShelfH_cons]
          cases firstIdxFrom (shExactP w h) rest (i + 1) with
          | some j => rfl
          | none =>
            show ShScan.done _ (y + s.h + totalShelfH rest) =
              ShScan.done _ (y + (s.h + totalShelfH rest))
            rw [add_assoc]
        · have hc : w ≤ s.free ∧ h < s.h := by omega
          rw [shScan_cons_fit rest i y best hwf hex hsk,
            specShBest_cons_cand rest i best hc, totalShelfH_cons]
          by_cases hw : wasteLt ((s.h - h) * w) best.waste = true
          · rw [if_pos hw, if_pos hw, ih (i + 1) (y + s.h) _]
            cases firstIdxFrom (shExactP w h) rest (i + 1) with
            | some j => rfl
            | none =>
              show ShScan.done _ (y + s.h + totalShelfH rest) =
                ShScan.done _ (y + (s.h + totalShelfH rest))
              rw [add_assoc]
          · rw [if_neg hw, if_neg hw, ih (i + 1) (y + s.h) best]
            cases firstIdxFrom (shExactP w h) rest (i + 1) with
            | some j => rfl
            | none =>
              show ShScan.done _ (y + s.h + totalShelfH rest) =
                ShScan.done _ (y + (s.h + totalShelfH rest))
              rw [add_assoc]

theorem packOneCore_eq_stagedCore (retry : ShelfPack → PackResult × ShelfPack)
    (w h : Int) (fid : BinId) (p : ShelfPack) :
    packOneCore retry w h fid p = stagedCore retry w h fid p := by
  unfold packOneCore stagedCore specExactFreebin specExactShelf specBest
  rw [fbScan_eq]
  cases hfb : firstIdxFrom (fbExactP p w h) p.freebins 0 with
  | some i => rfl
  | none =>
    have key : ∀ B : Best,
        (match shScan w h p.shelves 0 0 B with
         | ShScan.exact j => p.allocShelf j w h fid
         | ShScan.done best y =>
           if best.freebin ≠ -1 then p.allocFreebin best.freebin.toNat w h fid
           else if best.shelf ≠ -1 then p.allocShelf best.shelf.toNat w h fid
           else packFallback retry w h fid p y) =
        (match firstIdxFrom (shExactP w h) p.shelves 0 with
         | some j => p.allocShelf j w h fid
         | none =>
           let best := specShBest w h p.shelves 0 B
           if best.freebin ≠ -1 then p.allocFreebin best.freebin.toNat w h fid
           else if best.shelf ≠ -1 then p.allocShelf best.shelf.toNat w h fid
           else packFallback retry w h fid p (totalShelfH p.shelves)) := by
      intro B
      rw [shScan_eq]
      cases hsh : firstIdxFrom (shExactP w h) p.shelves 0 with
      | some j => rfl
      | none => simp only [zero_add]
    exact key _

/-- C2: for a `packOne(w, h, id)` call whose id is not already active, the
source's single-pass scans implement the staged policy: first exact
free-bin footprint match (first in pool order wins), else first
exact-height shelf with enough free width, else the shared best-waste slot
in which an improving shelf candidate clears a recorded free-bin candidate
but a non-improving one never displaces it; otherwise fall through to the
new-shelf / auto-resize / failure tail. -/
theorem c2_selection_policy (fuel : Nat) (w h : Int) (id : BinId) (p : ShelfPack)
    (hmiss : p.getBin id = none) :
    ShelfPack.packOne (fuel + 1) w h (some id) p =
      stagedCore (ShelfPack.packOne fuel w h (some id)) w h id p := by
  rw [show ShelfPack.packOne (fuel + 1) w h (some id) p =
      (match p.getBin id with
       | some a => (.ok (some a), (p.ref a).2)
       | none => packOneCore (ShelfPack.packOne fuel w h (some id)) w h id p) from rfl]
  rw [hmiss]
  exact packOneCore_eq_stagedCore _ w h id p

/-- Witness for C2 at a concrete input. -/
theorem c2_selection_policy_witness :
    ShelfPack.getBin p64 (.str "z") = none ∧
    ShelfPack.packOne 1 5 5 (some (.str "z")) p64 =
      stagedCore (ShelfPack.packOne 0 5 5 (some (.str "z"))) 5 5 (.str "z") p64 :=
  ⟨rfl, c2_selection_policy 0 5 5 (.str "z") p64 rfl⟩

/-! ## C6: repeated ids share the bin; unref drains and deregisters -/

theorem find?_storeSet_self (l : List (Nat × Bin)) (a : Nat) (b' : Bin) :
    (storeSet l a b').find? (fun e => e.1 = a) =
      (l.find? (fun e => e.1 = a)).map (fun _ => (a, b')) := by
  induction l with
  | nil => rfl
  | cons e rest ih =>
    by_cases he : e.1 = a
    · simp [storeSet, he]
    · simp only [storeSet, List.map_cons, if_neg he]
      rw [List.find?_cons_of_neg, List.find?_cons_of_neg]
      · exact ih
      · simp [he]
      · simp [he]

theorem find?_storeSet_other (l : List (Nat × Bin)) (a a' : Nat) (b' : Bin)
    (hne : a' ≠ a) :
    (storeSet l a b').find? (fun e => e.1 = a') = l.find? (fun e => e.1 = a') := by
  induction l with
  | nil => rfl
  | cons e rest ih =>
    by_cases he : e.1 = a
    · simp only [storeSet, List.map_cons, if_pos he]
      rw [List.find?_cons_of_neg _ (by simp only [decide_eq_true_eq]; omega),
        List.find?_cons_of_neg _ (by simp only [decide_eq_true_eq]; omega)]
      exact ih
    · simp only [storeSet, List.map_cons, if_neg he]
      by_cases he' : e.1 = a'
      · rw [List.find?_cons_of_pos _ (by simp [he']), List.find?_cons_of_pos _ (by simp [he'])]
      · rw [List.find?_cons_of_neg _ (by simp [he']), List.find?_cons_of_neg _ (by simp [he'])]
        exact ih

theorem storeGet_set_self (p : ShelfPack) (a : Nat) (b b' : Bin)
    (hst : storeGet p a = some b) (st' : List (Int × Option Int))
    (bins' : List (BinId × Nat)) (fb' : List Nat) :
    storeGet { p with store := storeSet p.store a b', stats := st',
                      bins := bins', freebins := fb' } a = some b' := by
  unfold storeGet at hst ⊢
  rw [find?_storeSet_self]
  cases hf : p.store.find? (fun e => e.1 = a) with
  | none => rw [hf] at hst; exact absurd hst (by simp)
  | some e => simp

theorem regGet_regDel_self (l : List (BinId × Nat)) (k : BinId) :
    regGet (regDel l k) k = none := by
  unfold regGet regDel
  induction l with
  | nil => rfl
  | cons e rest ih =>
    by_cases he : e.1 = k
    · simp [he, ih]
    · simp [he, ih]

theorem ref_eq_of_rc_pos (p : ShelfPack) (a : Nat) (b : Bin)
    (hst : storeGet p a = some b) (hrc : 1 ≤ b.refcount) :
    (p.ref a).2 =
      { p with store := storeSet p.store a { b with refcount := b.refcount + 1 } } := by
  unfold ShelfPack.ref
  rw [hst]
  have h1 : ¬ (b.refcount + 1 = 1) := by omega
  simp [h1]

theorem unref_eq_of_rc_big (p : ShelfPack) (a : Nat) (b : Bin)
    (hst : storeGet p a = some b) (hrc : 2 ≤ b.refcount) :
    (p.unref a).2 =
      { p with store := storeSet p.store a { b with refcount := b.refcount - 1 } } := by
  unfold ShelfPack.unref
  rw [hst]
  have h0 : ¬ (b.refcount = 0) := by omega
  have h1 : ¬ (b.refcount - 1 = 0) := by omega
  simp [h0, h1]

theorem unref_eq_of_rc_one (p : ShelfPack) (a : Nat) (b : Bin)
    (hst : storeGet p a = some b) (hrc : b.refcount = 1) :
    (p.unref a).2 =
      { p with store := storeSet p.store a { b with refcount := b.refcount - 1 },
               stats := statsDecr p.stats b.h,
               bins := regDel p.bins (idKey b.id),
               freebins := p.freebins ++ [a] } := by
  unfold ShelfPack.unref
  rw [hst]
  have h0 : ¬ (b.refcount = 0) := by omega
  have h1 : b.refcount - 1 = 0 := by omega
  simp [h0, h1]

theorem unrefN_drain (n : Nat) (a : Nat) (q : ShelfPack) (c : Bin)
    (hst : storeGet q a = some c) (hrc : c.refcount = (n : Int) + 1) :
    (storeGet (unrefN (n + 1) a q) a).map Bin.refcount = some 0 ∧
    regGet (unrefN (n + 1) a q).bins (idKey c.id) = none := by
  induction n generalizing q c with
  | zero =>
    have hq : unrefN 1 a q = (q.unref a).2 := rfl
    rw [hq, unref_eq_of_rc_one q a c hst (by simpa using hrc)]
    constructor
    · rw [storeGet_set_self q a c { c with refcount := c.refcount - 1 } hst
        (statsDecr q.stats c.h) (regDel q.bins (idKey c.id)) (q.freebins ++ [a])]
      have h0 : c.refcount - 1 = 0 := by omega
      simp [h0]
    · exact regGet_regDel_self q.bins (idKey c.id)
  | succ n ih =>
    have hq : unrefN (n + 2) a q = unrefN (n + 1) a (q.unref a).2 := rfl
    rw [hq, unref_eq_of_rc_big q a c hst (by omega)]
    have hst' : storeGet
        { q with store := storeSet q.store a { c with refcount := c.refcount - 1 },
                 stats := q.stats, bins := q.bins, freebins := q.freebins } a =
        some { c with refcount := c.refcount - 1 } :=
      storeGet_set_self q a c _ hst q.stats q.bins q.freebins
    have := ih _ _ hst' (by simp; omega)
    simpa using this

/-- C6: a second `packOne` with an id active in the registry returns the
same bin address (hence the same placement) with refcount incremented by
one, and changes nothing else — no shelves, free pool, registry or
container dimensions; calling `unref` the same total number of times then
drives the refcount to 0 and removes the id from `getBin` lookup. -/
theorem c6_repeat_id_ref_and_unref (fuel : Nat) (w h : Int) (id : BinId)
    (p : ShelfPack) (a : Nat) (b : Bin)
    (hreg : p.getBin id = some a)
    (hstore : storeGet p a = some b)
    (hrc : 1 ≤ b.refcount)
    (hid : idKey b.id = idKey id) :
    ShelfPack.packOne (fuel + 1) w h (some id) p =
      (.ok (some a),
       { p with store := storeSet p.store a { b with refcount := b.refcount + 1 } }) ∧
    (ShelfPack.packOne (fuel + 1) w h (some id) p).2.shelves = p.shelves ∧
    (ShelfPack.packOne (fuel + 1) w h (some id) p).2.freebins = p.freebins ∧
    (ShelfPack.packOne (fuel + 1) w h (some id) p).2.bins = p.bins ∧
    (ShelfPack.packOne (fuel + 1) w h (some id) p).2.w = p.w ∧
    (ShelfPack.packOne (fuel + 1) w h (some id) p).2.h = p.h ∧
    storeGet (ShelfPack.packOne (fuel + 1) w h (some id) p).2 a =
      some { b with refcount := b.refcount + 1 } ∧
    (storeGet (unrefN (b.refcount + 1).toNat a
        (ShelfPack.packOne (fuel + 1) w h (some id) p).2) a).map Bin.refcount =
      some 0 ∧
    (unrefN (b.refcount + 1).toNat a
        (ShelfPack.packOne (fuel + 1) w h (some id) p).2).getBin id = none := by
  have hstep : ShelfPack.packOne (fuel + 1) w h (some id) p = (.ok (some a), (p.ref a).2) := by
    rw [show ShelfPack.packOne (fuel + 1) w h (some id) p =
        (match p.getBin id with
         | some a => (.ok (some a), (p.ref a).2)
         | none => packOneCore (ShelfPack.packOne fuel w h (some id)) w h id p) from rfl]
    rw [hreg]
  have href := ref_eq_of_rc_pos p a b hstore hrc
  have hstate : (ShelfPack.packOne (fuel + 1) w h (some id) p).2 =
      { p with store := storeSet p.store a { b with refcount := b.refcount + 1 } } := by
    rw [hstep, href]
  have hst2 : storeGet (ShelfPack.packOne (fuel + 1) w h (some id) p).2 a =
      some { b with refcount := b.refcount + 1 } := by
    rw [hstate]
    exact storeGet_set_self p a b _ hstore p.stats p.bins p.freebins
  have hn : (b.refcount + 1).toNat = b.refcount.toNat + 1 := by omega
  have hdrain := unrefN_drain b.refcount.toNat a
      (ShelfPack.packOne (fuel + 1) w h (some id) p).2
      { b with refcount := b.refcount + 1 } hst2 (by simp; omega)
  refine ⟨by rw [hstep, href], by rw [hstate], by rw [hstate], by rw [hstate],
    by rw [hstate], by rw [hstate], hst2, ?_, ?_⟩
  · rw [hn]
    exact hdrain.1
  · rw [hn]
    have := hdrain.2
    unfold ShelfPack.getBin
    rw [show idKey id = idKey ({ b with refcount := b.refcount + 1 } : Bin).id from
      (by simpa using hid.symm)]
    exact this

/-- Witness for C6 at a concrete input. -/
theorem c6_repeat_id_witness :
    ShelfPack.packOne 1 3 3 (some (.str "a")) pa =
      (.ok (some 0),
       { pa with store := storeSet pa.store 0 ⟨.str "a", 0, 0, 5, 5, 5, 5, 2⟩ }) :=
  (c6_repeat_id_ref_and_unref 0 3 3 (.str "a") pa 0 ⟨.str "a", 0, 0, 5, 5, 5, 5, 1⟩
    rfl rfl (by decide) rfl).1

/-! ## C9: the defensive error in allocShelf is unreachable -/

theorem fbScan_exact_spec (p : ShelfPack) (w h : Int) (l : List Nat) (i : Nat)
    (best : Best) (j : Nat)
    (hsuf : ∀ k : Nat, l[k]? = p.freebins[i + k]?)
    (hres : fbScan p w h l i best = .exact j) :
    ∃ a bin, p.freebins[j]? = some a ∧ storeGet p a = some bin ∧
      h = bin.maxh ∧ w = bin.maxw := by
  induction l generalizing i best with
  | nil => exact absurd hres (by simp [fbScan])
  | cons a rest ih =>
    have hsuf' : ∀ k : Nat, rest[k]? = p.freebins[(i + 1) + k]? := by
      intro k
      have := hsuf (k + 1)
      simpa [Nat.add_comm, Nat.add_assoc, Nat.add_left_comm] using this
    cases hsg : storeGet p a with
    | none =>
      rw [fbScan_cons_none rest i best hsg] at hres
      exact ih (i + 1) best hsuf' hres
    | some bin =>
      by_cases hex : h = bin.maxh ∧ w = bin.maxw
      · rw [fbScan_cons_exact rest i best hsg hex] at hres
        cases hres
        refine ⟨a, bin, ?_, hsg, hex.1, hex.2⟩
        have := hsuf 0
        simpa using this.symm
      · by_cases hskip : h > bin.maxh ∨ w > bin.maxw
        · rw [fbScan_cons_skip rest i best hsg hex hskip] at hres
          exact ih (i + 1) best hsuf' hres
        · rw [fbScan_cons_fit rest i best hsg hex hskip] at hres
          by_cases hw : wasteLt (bin.maxw * bin.maxh - w * h) best.waste = true
          · rw [if_pos hw] at hres
            exact ih (i + 1) _ hsuf' hres
          · rw [if_neg hw] at hres
            exact ih (i + 1) best hsuf' hres

theorem fbScan_done_spec (p : ShelfPack) (w h : Int) (l : List Nat) (i : Nat)
    (best best' : Best)
    (hsuf : ∀ k : Nat, l[k]? = p.freebins[i + k]?)
    (hres : fbScan p w h l i best = .done best')
    (hok : FbBestOK p w h best) :
    FbBestOK p w h best' ∧ best'.shelf = best.shelf := by
  induction l generalizing i best with
  | nil =>
    have : best = best' := by
      simpa [fbScan] using hres
    subst this
    exact ⟨hok, rfl⟩
  | cons a rest ih =>
    have hsuf' : ∀ k : Nat, rest[k]? = p.freebins[(i + 1) + k]? := by
      intro k
      have := hsuf (k + 1)
      simpa [Nat.add_comm, Nat.add_assoc, Nat.add_left_comm] using this
    cases hsg : storeGet p a with
    | none =>
      rw [fbScan_cons_none rest i best hsg] at hres
      exact ih (i + 1) best hsuf' hres hok
    | some bin =>
      by_cases hex : h = bin.maxh ∧ w = bin.maxw
      · rw [fbScan_cons_exact rest i best hsg hex] at hres
        cases hres
      · by_cases hskip : h > bin.maxh ∨ w > bin.maxw
        · rw [fbScan_cons_skip rest i best hsg hex hskip] at hres
          exact ih (i + 1) best hsuf' hres hok
        · rw [fbScan_cons_fit rest i best hsg hex hskip] at hres
          by_cases hw : wasteLt (bin.maxw * bin.maxh - w * h) best.waste = true
          · rw [if_pos hw] at hres
            have hidx : p.freebins[i]? = some a := by
              have := hsuf 0
              simpa using this.symm
            exact ih (i + 1)
              { best with waste := some (bin.maxw * bin.maxh - w * h), freebin := (i : Int) }
              hsuf' hres
              (Or.inr ⟨a, bin, by simpa using hidx, hsg, by omega, by omega⟩)
          · rw [if_neg hw] at hres
            exact ih (i + 1) best hsuf' hres hok

theorem shScan_exact_spec (w h : Int) (shelves : List Shelf) (l : List Shelf)
    (i : Nat) (y : Int) (best : Best) (j : Nat)
    (hsuf : ∀ k : Nat, l[k]? = shelves[i + k]?)
    (hres : shScan w h l i y best = .exact j) :
    ∃ s, shelves[j]? = some s ∧ w ≤ s.free ∧ h = s.h := by
  induction l generalizing i y best with
  | nil => exact absurd hres (by simp [shScan])
  | cons s rest ih =>
    have hsuf' : ∀ k : Nat, rest[k]? = shelves[(i + 1) + k]? := by
      intro k
      have := hsuf (k + 1)
      simpa [Nat.add_comm, Nat.add_assoc, Nat.add_left_comm] using this
    by_cases hwf : w > s.free
    · rw [shScan_cons_skipw rest i y best hwf] at hres
      exact ih (i + 1) (y + s.h) best hsuf' hres
    · by_cases hex : h = s.h
      · rw [shScan_cons_exact rest i y best hwf hex] at hres
        cases hres
        refine ⟨s, ?_, by omega, hex⟩
        have := hsuf 0
        simpa using this.symm
      · by_cases hsk : h > s.h
        · rw [shScan_cons_skiph rest i y best hwf hex hsk] at hres
          exact ih (i + 1) (y + s.h) best hsuf' hres
        · rw [shScan_cons_fit rest i y best hwf hex hsk] at hres
          by_cases hw : wasteLt ((s.h - h) * w) best.waste = true
          · rw [if_pos hw] at hres
            exact ih (i + 1) (y + s.h) _ hsuf' hres
          · rw [if_neg hw] at hres
            exact ih (i + 1) (y + s.h) best hsuf' hres

theorem shScan_done_spec (p : ShelfPack) (w h : Int) (l : List Shelf)
    (i : Nat) (y : Int) (best best' : Best) (y' : Int)
    (hsuf : ∀ k : Nat, l[k]? = p.shelves[i + k]?)
    (hres : shScan w h l i y best = .done best' y')
    (hfb : FbBestOK p w h best)
    (hsh : ShBestOK p.shelves w h best) :
    FbBestOK p w h best' ∧ ShBestOK p.shelves w h best' := by
  induction l generalizing i y best with
  | nil =>
    have : best = best' := by
      have := hres
      simp only [shScan] at this
      cases this
      rfl
    subst this
    exact ⟨hfb, hsh⟩
  | cons s rest ih =>
    have hsuf' : ∀ k : Nat, rest[k]? = p.shelves[(i + 1) + k]? := by
      intro k
      have := hsuf (k + 1)
      simpa [Nat.add_comm, Nat.add_assoc, Nat.add_left_comm] using this
    by_cases hwf : w > s.free
    · rw [shScan_cons_skipw rest i y best hwf] at hres
      exact ih (i + 1) (y + s.h) best hsuf' hres hfb hsh
    · by_cases hex : h = s.h
      · rw [shScan_cons_exact rest i y best hwf hex] at hres
        cases hres
      · by_cases hsk : h > s.h
        · rw [shScan_cons_skiph rest i y best hwf hex hsk] at hres
          exact ih (i + 1) (y + s.h) best hsuf' hres hfb hsh
        · rw [shScan_cons_fit rest i y best hwf hex hsk] at hres
          by_cases hw : wasteLt ((s.h - h) * w) best.waste = true
          · rw [if_pos hw] at hres
            refine ih (i + 1) (y + s.h) _ hsuf' hres (Or.inl rfl)
              (Or.inr ⟨s, ?_, by omega, by omega⟩)
            have := hsuf 0
            simpa using this.symm
          · rw [if_neg hw] at hres
            exact ih (i + 1) (y + s.h) best hsuf' hres hfb hsh

theorem allocFreebin_ok (p : ShelfPack) (i : Nat) (w h : Int) (fid : BinId)
    (a : Nat) (bin : Bin) (hi : p.freebins[i]? = some a)
    (hsg : storeGet p a = some bin) :
    (p.allocFreebin i w h fid).1 = .ok (some p.nextAddr) := by
  simp only [ShelfPack.allocFreebin, hi, hsg]

theorem allocShelf_ok (p : ShelfPack) (j : Nat) (w h : Int) (fid : BinId)
    (s : Shelf) (hj : p.shelves[j]? = some s) (hw : w ≤ s.free) (hh : h ≤ s.h) :
    (p.allocShelf j w h fid).1 = .ok (some p.nextAddr) := by
  have halloc : Shelf.alloc s w h fid =
      some ({ s with x := s.x + w, free := s.free - w },
        ⟨fid, s.x, s.y, w, h, w, s.h, 0⟩) := by
    unfold Shelf.alloc
    rw [if_neg (by omega)]
  simp only [ShelfPack.allocShelf, hj, halloc]

theorem packOneCore_no_error (retry : ShelfPack → PackResult × ShelfPack)
    (w h : Int) (fid : BinId) (p : ShelfPack)
    (hretry : ∀ q, ((retry q).1).isCrash = false) :
    ((packOneCore retry w h fid p).1).isCrash = false := by
  unfold packOneCore
  have hsufF : ∀ k : Nat, p.freebins[k]? = p.freebins[0 + k]? := by
    intro k
    rw [Nat.zero_add]
  have hsufS : ∀ k : Nat, p.shelves[k]? = p.shelves[0 + k]? := by
    intro k
    rw [Nat.zero_add]
  cases hfb : fbScan p w h p.freebins 0 ⟨-1, -1, none⟩ with
  | exact i =>
    show ((p.allocFreebin i w h fid).1).isCrash = false
    obtain ⟨a, bin, hi, hsg, _, _⟩ := fbScan_exact_spec p w h p.freebins 0 _ i hsufF hfb
    rw [allocFreebin_ok p i w h fid a bin hi hsg]
    rfl
  | done best1 =>
    have hok1 : FbBestOK p w h best1 ∧ best1.shelf = (-1 : Int) :=
      fbScan_done_spec p w h p.freebins 0 _ best1 hsufF hfb (Or.inl rfl)
    show ((match shScan w h p.shelves 0 0 best1 with
          | ShScan.exact j => p.allocShelf j w h fid
          | ShScan.done best y =>
            if best.freebin ≠ -1 then p.allocFreebin best.freebin.toNat w h fid
            else if best.shelf ≠ -1 then p.allocShelf best.shelf.toNat w h fid
            else packFallback retry w h fid p y).1).isCrash = false
    cases hsh : shScan w h p.shelves 0 0 best1 with
    | exact j =>
      show ((p.allocShelf j w h fid).1).isCrash = false
      obtain ⟨s, hj, hw2, hh2⟩ := shScan_exact_spec w h p.shelves p.shelves 0 0 best1 j hsufS hsh
      rw [allocShelf_ok p j w h fid s hj hw2 (by omega)]
      rfl
    | done best2 y =>
      show (((if best2.freebin ≠ -1 then p.allocFreebin best2.freebin.toNat w h fid
            else if best2.shelf ≠ -1 then p.allocShelf best2.shelf.toNat w h fid
            else packFallback retry w h fid p y)).1).isCrash = false
      have hok2 : FbBestOK p w h best2 ∧ ShBestOK p.shelves w h best2 :=
        shScan_done_spec p w h p.shelves 0 0 best1 best2 y hsufS hsh hok1.1
          (Or.inl hok1.2)
      by_cases hbf : best2.freebin ≠ -1
      · rw [if_pos hbf]
        rcases hok2.1 with h1 | ⟨a, bin, hi, hsg, _, _⟩
        · exact absurd h1 hbf
        · rw [allocFreebin_ok p best2.freebin.toNat w h fid a bin hi hsg]
          rfl
      · rw [if_neg hbf]
        by_cases hbs : best2.shelf ≠ -1
        · rw [if_pos hbs]
          rcases hok2.2 with h1 | ⟨s, hj, hw2, hh2⟩
          · exact absurd h1 hbs
          · rw [allocShelf_ok p best2.shelf.toNat w h fid s hj hw2 hh2]
            rfl
        · rw [if_neg hbs]
          unfold packFallback
          by_cases hfit : h ≤ p.h - y ∧ w ≤ p.w
          · rw [if_pos hfit]
            have hget : ({ p with shelves := p.shelves ++ [Shelf.make y p.w h 0] } :
                ShelfPack).shelves[p.shelves.length]? = some (Shelf.make y p.w h 0) := by
              simp
            rw [allocShelf_ok _ p.shelves.length w h fid (Shelf.make y p.w h 0) hget
              (by simpa [Shelf.make] using hfit.2) (le_refl h)]
            rfl
          · rw [if_neg hfit]
            by_cases har : p.autoResize
            · rw [if_pos har]
              exact hretry _
            · rw [if_neg har]
              rfl

/-- C9: `packOne` never takes the defensive `throw` in `allocShelf` (nor
any invalid-index crash): whenever an allocation helper is invoked, the
selection logic has already established that the index is valid and that
`w ≤ shelf.free` and `h ≤ shelf.h`, and nothing changes state in between;
this holds for every starting state, id and fuel. -/
theorem c9_internal_error_unreachable (fuel : Nat) (w h : Int) (id? : Option BinId)
    (p : ShelfPack) :
    ((ShelfPack.packOne fuel w h id? p).1).isCrash = false := by
  induction fuel generalizing id? p with
  | zero => rfl
  | succ fuel ih =>
    cases id? with
    | some id =>
      rw [show ShelfPack.packOne (fuel + 1) w h (some id) p =
          (match p.getBin id with
           | some a => (.ok (some a), (p.ref a).2)
           | none => packOneCore (ShelfPack.packOne fuel w h (some id)) w h id p) from rfl]
      cases p.getBin id with
      | some a => rfl
      | none => exact packOneCore_no_error _ w h id p (fun q => ih (some id) q)
    | none =>
      exact packOneCore_no_error _ w h _ _ (fun q => ih _ q)

/-! ## C8: shrink is idempotent -/

theorem shelf_resize_resize (s : Shelf) (W : Int) :
    Shelf.resize (Shelf.resize s W) W = Shelf.resize s W := by
  simp [Shelf.resize]

theorem usedW_resize (s : Shelf) (W : Int) :
    (Shelf.resize s W).w - (Shelf.resize s W).free = s.w - s.free := by
  simp [Shelf.resize]
  ring

theorem maxUsedW_foldl_resize (l : List Shelf) (W acc : Int) :
    (l.map (Shelf.resize · W)).foldl (fun acc s => max (s.w - s.free) acc) acc =
      l.foldl (fun acc s => max (s.w - s.free) acc) acc := by
  induction l generalizing acc with
  | nil => rfl
  | cons s rest ih =>
    simp only [List.map_cons, List.foldl_cons, usedW_resize]
    exact ih _

theorem maxUsedW_map_resize (l : List Shelf) (W : Int) :
    maxUsedW (l.map (Shelf.resize · W)) = maxUsedW l :=
  maxUsedW_foldl_resize l W 0

theorem totalShelfH_foldl_resize (l : List Shelf) (W acc : Int) :
    (l.map (Shelf.resize · W)).foldl (fun acc s => acc + s.h) acc =
      l.foldl (fun acc s => acc + s.h) acc := by
  induction l generalizing acc with
  | nil => rfl
  | cons s rest ih =>
    simp only [List.map_cons, List.foldl_cons, Shelf.resize]
    exact ih _

theorem totalShelfH_map_resize (l : List Shelf) (W : Int) :
    totalShelfH (l.map (Shelf.resize · W)) = totalShelfH l :=
  totalShelfH_foldl_resize l W 0

theorem resize_resize (p : ShelfPack) (W H H2 : Int) :
    (p.resize W H).resize W H2 = p.resize W H2 := by
  simp only [ShelfPack.resize, List.map_map]
  congr 1
  apply List.map_congr_left
  intro s _
  exact shelf_resize_resize s W

theorem shrink_shrink (p : ShelfPack) : p.shrink.shrink = p.shrink := by
  by_cases hl : p.shelves.length > 0
  · have h1 : p.shrink = p.resize (maxUsedW p.shelves) (totalShelfH p.shelves) := by
      unfold ShelfPack.shrink
      rw [if_pos hl]
    have hsh : (p.resize (maxUsedW p.shelves) (totalShelfH p.shelves)).shelves =
        p.shelves.map (Shelf.resize · (maxUsedW p.shelves)) := rfl
    have hlen : (p.resize (maxUsedW p.shelves) (totalShelfH p.shelves)).shelves.length > 0 := by
      rw [hsh, List.length_map]
      exact hl
    rw [h1]
    unfold ShelfPack.shrink
    rw [if_pos hlen, hsh, maxUsedW_map_resize, totalShelfH_map_resize, resize_resize]
  · have h1 : p.shrink = p := by
      unfold ShelfPack.shrink
      rw [if_neg hl]
    rw [h1, h1]

/-! ## C10: frame effect of ref -/

theorem ref_state_eq (p : ShelfPack) (a : Nat) :
    (p.ref a).2 =
      match storeGet p a with
      | none => p
      | some b =>
        if b.refcount + 1 = 1 then
          { p with store := storeSet p.store a { b with refcount := b.refcount + 1 },
                   stats := statsIncr p.stats b.h }
        else
          { p with store := storeSet p.store a { b with refcount := b.refcount + 1 } } := by
  unfold ShelfPack.ref
  cases storeGet p a with
  | none => rfl
  | some b =>
    by_cases hb : b.refcount + 1 = 1
    · simp [hb]
    · simp [hb]

/-- C10: `ref(bin)` only bumps the bin's refcount (and, on a 0-to-1
transition, the stats entry for `bin.h`); it does not remove the bin from
the free pool, does not touch the registry, the shelves or the container
size.  Consequently a bin freed by `unref` and re-ref'd directly has
refcount 1 while still sitting in the free pool and absent from the
registry, and a later `packOne` re-allocates its footprint to a second
bin at the same position. -/
theorem c10_ref_frame_effect (p : ShelfPack) (a : Nat) :
    ((p.ref a).2 =
      match storeGet p a with
      | none => p
      | some b =>
        if b.refcount + 1 = 1 then
          { p with store := storeSet p.store a { b with refcount := b.refcount + 1 },
                   stats := statsIncr p.stats b.h }
        else
          { p with store := storeSet p.store a { b with refcount := b.refcount + 1 } }) ∧
    (p.ref a).2.freebins = p.freebins ∧
    (p.ref a).2.bins = p.bins ∧
    (p.ref a).2.shelves = p.shelves ∧
    (p.ref a).2.w = p.w ∧ (p.ref a).2.h = p.h ∧
    (cexRefFree.freebins = [0] ∧
     cexRefFree.bins = [] ∧
     (storeGet cexRefFree 0).map Bin.refcount = some 1 ∧
     (storeGet cexRefFree2 0).map (fun b => (b.refcount, binFootprint b)) =
        some (1, ⟨0, 0, 5, 5⟩) ∧
     (storeGet cexRefFree2 1).map (fun b => (b.refcount, binFootprint b)) =
        some (1, ⟨0, 0, 5, 5⟩)) := by
  refine ⟨ref_state_eq p a, ?_, ?_, ?_, ?_, ?_, rfl, rfl, rfl, rfl, rfl⟩ <;>
    · rw [ref_state_eq p a]
      cases storeGet p a with
      | none => rfl
      | some b =>
        by_cases hb : b.refcount + 1 = 1
        · simp [hb]
        · simp [hb]

/-! ## Helper lemmas for the state invariants -/

theorem storeGet_unfold (p : ShelfPack) (a : Nat) :
    storeGet p a = (p.store.find? (fun e => e.1 = a)).map (·.2) := rfl

theorem find?_append_of_some {l1 l2 : List α} {q : α → Bool} {x : α}
    (h : l1.find? q = some x) : (l1 ++ l2).find? q = some x := by
  rw [List.find?_append, h]
  rfl

theorem find?_append_of_none {l1 l2 : List α} {q : α → Bool}
    (h : l1.find? q = none) : (l1 ++ l2).find? q = l2.find? q := by
  rw [List.find?_append, h]
  rfl

theorem getElem?_mem {l : List α} {i : Nat} {a : α} (h : l[i]? = some a) : a ∈ l := by
  rw [List.getElem?_eq_some_iff] at h
  obtain ⟨hlt, rfl⟩ := h
  exact List.getElem_mem hlt

theorem mem_regDel {l : List (BinId × Nat)} {k : BinId} {e : BinId × Nat} :
    e ∈ regDel l k ↔ e ∈ l ∧ ¬ e.1 = k := by
  simp [regDel, List.mem_filter]

theorem mem_regSet {l : List (BinId × Nat)} {k : BinId} {a : Nat} {e : BinId × Nat} :
    e ∈ regSet l k a ↔ (e ∈ l ∧ ¬ e.1 = k) ∨ e = (k, a) := by
  simp [regSet, List.mem_filter, List.mem_append]

theorem regKeys_regSet (l : List (BinId × Nat)) (k : BinId) (a : Nat)
    (h : (l.map Prod.fst).Nodup) : ((regSet l k a).map Prod.fst).Nodup := by
  unfold regSet
  rw [List.map_append, List.nodup_append]
  refine ⟨?_, by simp, ?_⟩
  · exact ((List.filter_sublist l).map Prod.fst).nodup h
  · intro x hx
    simp only [List.mem_map] at hx
    obtain ⟨e, he, rfl⟩ := hx
    rw [List.mem_filter] at he
    simp only [List.map_cons, List.map_nil, List.mem_singleton]
    intro hek
    have := he.2
    rw [hek] at this
    simp at this

theorem regKeys_regDel (l : List (BinId × Nat)) (k : BinId)
    (h : (l.map Prod.fst).Nodup) : ((regDel l k).map Prod.fst).Nodup :=
  ((List.filter_sublist l).map Prod.fst).nodup h

theorem find?_filter_comm (l : List (BinId × Nat)) (k k' : BinId) (hne : k' ≠ k) :
    (l.filter (fun e => ¬ e.1 = k)).find? (fun e => e.1 = k') =
      l.find? (fun e => e.1 = k') := by
  induction l with
  | nil => rfl
  | cons e rest ih =>
    by_cases hek : e.1 = k
    · have hek' : ¬ (e.1 = k') := by
        rw [hek]
        exact fun heq => hne heq.symm
      rw [List.filter_cons_of_neg (by simp [hek]),
        List.find?_cons_of_neg _ (by simp [hek']), ih]
    · by_cases hek' : e.1 = k'
      · rw [List.filter_cons_of_pos (by simp [hek]),
          List.find?_cons_of_pos _ (by simp [hek']),
          List.find?_cons_of_pos _ (by simp [hek'])]
      · rw [List.filter_cons_of_pos (by simp [hek]),
          List.find?_cons_of_neg _ (by simp [hek']),
          List.find?_cons_of_neg _ (by simp [hek']), ih]

theorem regGet_regSet_self (l : List (BinId × Nat)) (k : BinId) (a : Nat) :
    regGet (regSet l k a) k = some a := by
  unfold regGet regSet
  rw [find?_append_of_none]
  · simp
  · rw [List.find?_eq_none]
    intro e he
    rw [List.mem_filter] at he
    simpa using he.2

theorem regGet_regSet_ne (l : List (BinId × Nat)) (k : BinId) (a : Nat) (k' : BinId)
    (hne : k' ≠ k) : regGet (regSet l k a) k' = regGet l k' := by
  unfold regGet regSet
  rw [List.find?_append, find?_filter_comm l k k' hne]
  cases hf : l.find? (fun e => e.1 = k') with
  | some e => rfl
  | none =>
    rw [List.find?_cons_of_neg _ (by simp; exact fun heq => hne heq.symm)]
    rfl

theorem regGet_mem {l : List (BinId × Nat)} {k : BinId} {a : Nat}
    (h : regGet l k = some a) : (k, a) ∈ l := by
  unfold regGet at h
  cases hf : l.find? (fun e => e.1 = k) with
  | none => rw [hf] at h; exact absurd h (by simp)
  | some e =>
    rw [hf] at h
    have hmem := List.mem_of_find?_eq_some hf
    have hkey : e.1 = k := by simpa using List.find?_some hf
    have hval : e.2 = a := by simpa using h
    have : e = (k, a) := Prod.ext hkey hval
    rwa [this] at hmem

theorem nodup_keys_eq {α β : Type} [DecidableEq α] {l : List (α × β)}
    (hnd : (l.map Prod.fst).Nodup) {e e' : α × β} (he : e ∈ l) (he' : e' ∈ l)
    (hk : e.1 = e'.1) : e = e' := by
  induction l with
  | nil => cases he
  | cons x rest ih =>
    rw [List.map_cons, List.nodup_cons] at hnd
    rcases List.mem_cons.mp he with rfl | he2 <;>
      rcases List.mem_cons.mp he' with heq | he2'
    · exact heq.symm
    · exfalso
      apply hnd.1
      rw [hk]
      exact List.mem_map_of_mem Prod.fst he2'
    · exfalso
      apply hnd.1
      rw [heq] at hk
      rw [← hk]
      exact List.mem_map_of_mem Prod.fst he2
    · exact ih hnd.2 he2 he2'

theorem not_mem_eraseIdx_of_nodup {l : List α} {i : Nat} {a : α}
    (hnd : l.Nodup) (h : l[i]? = some a) : a ∉ l.eraseIdx i := by
  induction l generalizing i with
  | nil => simp at h
  | cons x rest ih =>
    rw [List.nodup_cons] at hnd
    cases i with
    | zero =>
      have : x = a := by simpa using h
      subst this
      simpa [List.eraseIdx] using hnd.1
    | succ i =>
      have h' : rest[i]? = some a := by simpa using h
      rw [List.eraseIdx_cons_succ, List.mem_cons]
      rintro (rfl | hmem)
      · exact hnd.1 (getElem?_mem h')
      · exact ih hnd.2 h' hmem

theorem nodup_concat_of_not_mem {l : List α} {a : α} (hnd : l.Nodup) (ha : a ∉ l) :
    (l ++ [a]).Nodup := by
  rw [List.nodup_append]
  exact ⟨hnd, List.nodup_singleton a, fun x hx hx' => ha ((List.mem_singleton.mp hx') ▸ hx)⟩

theorem tiled_get_h_nonneg {y0 : Int} {l : List Shelf} (ht : Tiled y0 l)
    {k : Nat} {s : Shelf} (hk : l[k]? = some s) : 0 ≤ s.h := by
  induction ht generalizing k with
  | nil => simp at hk
  | cons y0 t rest hy hh hrest ih =>
    cases k with
    | zero =>
      have : t = s := by simpa using hk
      exact this ▸ hh
    | succ k => exact ih (by simpa using hk)

theorem tiled_get_y_lb {y0 : Int} {l : List Shelf} (ht : Tiled y0 l)
    {k : Nat} {s : Shelf} (hk : l[k]? = some s) : y0 ≤ s.y := by
  induction ht generalizing k with
  | nil => simp at hk
  | cons y0 t rest hy hh hrest ih =>
    cases k with
    | zero =>
      have hts : t = s := by simpa using hk
      subst hts
      omega
    | succ k =>
      have := ih (by simpa using hk)
      omega

theorem tiled_get_lt {y0 : Int} {l : List Shelf} (ht : Tiled y0 l)
    {k k' : Nat} {s s' : Shelf} (hkk : k < k')
    (hk : l[k]? = some s) (hk' : l[k']? = some s') : s.y + s.h ≤ s'.y := by
  induction ht generalizing k k' with
  | nil => simp at hk
  | cons y0 t rest hy hh hrest ih =>
    cases k with
    | zero =>
      have hts : t = s := by simpa using hk
      subst hts
      cases k' with
      | zero => omega
      | succ k' =>
        have hk2 : rest[k']? = some s' := by simpa using hk'
        have := tiled_get_y_lb hrest hk2
        omega
    | succ k =>
      cases k' with
      | zero => omega
      | succ k' =>
        have h1 : rest[k]? = some s := by simpa using hk
        have h2 : rest[k']? = some s' := by simpa using hk'
        exact ih (by omega) h1 h2

theorem tiled_set {y0 : Int} {l : List Shelf} (ht : Tiled y0 l)
    {k : Nat} {s s' : Shelf} (hk : l[k]? = some s)
    (hy : s'.y = s.y) (hh : s'.h = s.h) : Tiled y0 (l.set k s') := by
  induction ht generalizing k with
  | nil => simp at hk
  | cons y0 t rest hty hth hrest ih =>
    cases k with
    | zero =>
      have hts : t = s := by simpa using hk
      subst hts
      rw [List.set_cons_zero]
      exact Tiled.cons y0 s' rest (by omega) (by omega) (by rw [hh]; exact hrest)
    | succ k =>
      rw [List.set_cons_succ]
      exact Tiled.cons y0 t _ hty hth (ih (by simpa using hk))

theorem tiled_append {y0 : Int} {l : List Shelf} (ht : Tiled y0 l)
    {s : Shelf} (hy : s.y = y0 + totalShelfH l) (hh : 0 ≤ s.h) :
    Tiled y0 (l ++ [s]) := by
  induction ht with
  | nil y1 =>
    refine Tiled.cons y1 s [] ?_ hh (Tiled.nil _)
    simpa [totalShelfH] using hy
  | cons y1 t rest hty hth hrest ih =>
    refine Tiled.cons y1 t (rest ++ [s]) hty hth (ih ?_)
    rw [hy, totalShelfH_cons]
    ring

theorem not_overlap_of_x {r1 r2 : Rect}
    (h : r1.x + r1.w ≤ r2.x ∨ r2.x + r2.w ≤ r1.x) : ¬ RectsOverlap r1 r2 := by
  rintro ⟨hx, -⟩
  rw [max_lt_iff, lt_min_iff, lt_min_iff] at hx
  omega

theorem not_overlap_of_y {r1 r2 : Rect}
    (h : r1.y + r1.h ≤ r2.y ∨ r2.y + r2.h ≤ r1.y) : ¬ RectsOverlap r1 r2 := by
  rintro ⟨-, hy⟩
  rw [max_lt_iff, lt_min_iff, lt_min_iff] at hy
  omega

theorem overlap_mono {r1 r2 f1 f2 : Rect}
    (h1 : r1.x = f1.x ∧ r1.y = f1.y ∧ r1.w ≤ f1.w ∧ r1.h ≤ f1.h)
    (h2 : r2.x = f2.x ∧ r2.y = f2.y ∧ r2.w ≤ f2.w ∧ r2.h ≤ f2.h)
    (h : RectsOverlap r1 r2) : RectsOverlap f1 f2 := by
  obtain ⟨hx, hy⟩ := h
  rw [max_lt_iff, lt_min_iff, lt_min_iff] at hx hy
  constructor <;> rw [max_lt_iff, lt_min_iff, lt_min_iff] <;> omega

/-! ## State descriptions of the allocation helpers -/

theorem storeGet_nextAddr_none (p : ShelfPack) (hInv : InvR p) :
    storeGet p p.nextAddr = none := by
  cases hsg : storeGet p p.nextAddr with
  | none => rfl
  | some b =>
    have := hInv.storeDom p.nextAddr (by rw [hsg]; rfl)
    omega

theorem find?_key_append_fresh (l : List (Nat × Bin)) (addr : Nat) (b : Bin)
    (a' : Nat) (hne : a' ≠ addr) :
    (l ++ [(addr, b)]).find? (fun e => e.1 = a') = l.find? (fun e => e.1 = a') := by
  rw [List.find?_append]
  cases hf : l.find? (fun e => e.1 = a') with
  | some e => rfl
  | none =>
    rw [List.find?_cons_of_neg _ (by simpa using Ne.symm hne)]
    rfl

theorem storeSet_append_fresh (l : List (Nat × Bin)) (addr : Nat) (b b' : Bin)
    (hfresh : l.find? (fun e => e.1 = addr) = none) :
    storeSet (l ++ [(addr, b)]) addr b' = l ++ [(addr, b')] := by
  unfold storeSet
  rw [List.map_append]
  rw [List.find?_eq_none] at hfresh
  congr 1
  · have hpt : ∀ e ∈ l, (if e.1 = addr then (addr, b') else e) = e := by
      intro e he
      rw [if_neg (by simpa using hfresh e he)]
    rw [List.map_congr_left hpt]
    exact List.map_id' l
  · simp

theorem allocFreebin_eq (p : ShelfPack) (i : Nat) (w h : Int) (fid : BinId)
    (a : Nat) (bin : Bin) (hi : p.freebins[i]? = some a)
    (hsg : storeGet p a = some bin) (hfresh : storeGet p p.nextAddr = none) :
    p.allocFreebin i w h fid =
      (.ok (some p.nextAddr),
       { p with freebins := p.freebins.eraseIdx i,
                store := p.store ++ [(p.nextAddr,
                  ⟨fid, bin.x, bin.y, w, h, bin.maxw, bin.maxh, 1⟩)],
                nextAddr := p.nextAddr + 1,
                bins := regSet p.bins (idKey fid) p.nextAddr,
                stats := statsIncr p.stats h }) := by
  have hfresh' : p.store.find? (fun e => e.1 = p.nextAddr) = none := by
    rw [storeGet_unfold] at hfresh
    exact Option.map_eq_none'.mp hfresh
  have hsg1 : storeGet
      { p with freebins := p.freebins.eraseIdx i,
               store := p.store ++ [(p.nextAddr,
                 (⟨fid, bin.x, bin.y, w, h, bin.maxw, bin.maxh, 0⟩ : Bin))],
               nextAddr := p.nextAddr + 1,
               bins := regSet p.bins (idKey fid) p.nextAddr } p.nextAddr =
      some (⟨fid, bin.x, bin.y, w, h, bin.maxw, bin.maxh, 0⟩ : Bin) := by
    rw [storeGet_unfold]
    simp only []
    rw [find?_append_of_none hfresh']
    simp
  simp only [ShelfPack.allocFreebin, hi, hsg]
  unfold ShelfPack.ref
  rw [hsg1]
  norm_num
  exact storeSet_append_fresh p.store p.nextAddr _ _ hfresh'

theorem allocShelf_eq (p : ShelfPack) (j : Nat) (w h : Int) (fid : BinId)
    (s : Shelf) (hj : p.shelves[j]? = some s) (hw : w ≤ s.free) (hh : h ≤ s.h)
    (hfresh : storeGet p p.nextAddr = none) :
    p.allocShelf j w h fid =
      (.ok (some p.nextAddr),
       { p with shelves := p.shelves.set j { s with x := s.x + w, free := s.free - w },
                store := p.store ++ [(p.nextAddr, ⟨fid, s.x, s.y, w, h, w, s.h, 1⟩)],
                nextAddr := p.nextAddr + 1,
                bins := regSet p.bins (idKey fid) p.nextAddr,
                stats := statsIncr p.stats h }) := by
  have hfresh' : p.store.find? (fun e => e.1 = p.nextAddr) = none := by
    rw [storeGet_unfold] at hfresh
    exact Option.map_eq_none'.mp hfresh
  have halloc : Shelf.alloc s w h fid =
      some ({ s with x := s.x + w, free := s.free - w },
        ⟨fid, s.x, s.y, w, h, w, s.h, 0⟩) := by
    unfold Shelf.alloc
    rw [if_neg (by omega)]
  have hsg1 : storeGet
      { p with shelves := p.shelves.set j { s with x := s.x + w, free := s.free - w },
               store := p.store ++ [(p.nextAddr,
                 (⟨fid, s.x, s.y, w, h, w, s.h, 0⟩ : Bin))],
               nextAddr := p.nextAddr + 1,
               bins := regSet p.bins (idKey fid) p.nextAddr } p.nextAddr =
      some (⟨fid, s.x, s.y, w, h, w, s.h, 0⟩ : Bin) := by
    rw [storeGet_unfold]
    simp only []
    rw [find?_append_of_none hfresh']
    simp
  simp only [ShelfPack.allocShelf, hj, halloc]
  unfold ShelfPack.ref
  rw [hsg1]
  norm_num
  exact storeSet_append_fresh p.store p.nextAddr _ _ hfresh'

/-! ## InvR: preservation through every operation -/

theorem storeGet_set_other (p : ShelfPack) (a x : Nat) (b' : Bin) (hne : x ≠ a)
    (st' : List (Int × Option Int)) (bins' : List (BinId × Nat)) (fb' : List Nat) :
    storeGet { p with store := storeSet p.store a b', stats := st',
                      bins := bins', freebins := fb' } x = storeGet p x := by
  rw [storeGet_unfold, storeGet_unfold]
  simp only []
  rw [find?_storeSet_other p.store a x b' hne]

theorem storeGet_snoc_other (p : ShelfPack) (addr x : Nat) (nb : Bin) (hne : x ≠ addr)
    (sh' : List Shelf) (fb' : List Nat) (st' : List (Int × Option Int))
    (bins' : List (BinId × Nat)) (na' : Nat) :
    storeGet { p with shelves := sh', freebins := fb', stats := st', bins := bins',
                      store := p.store ++ [(addr, nb)], nextAddr := na' } x =
      storeGet p x := by
  rw [storeGet_unfold, storeGet_unfold]
  simp only []
  rw [find?_key_append_fresh p.store addr nb x hne]

theorem storeGet_snoc_self (p : ShelfPack) (addr : Nat) (nb : Bin)
    (hfresh : p.store.find? (fun e => e.1 = addr) = none)
    (sh' : List Shelf) (fb' : List Nat) (st' : List (Int × Option Int))
    (bins' : List (BinId × Nat)) (na' : Nat) :
    storeGet { p with shelves := sh', freebins := fb', stats := st', bins := bins',
                      store := p.store ++ [(addr, nb)], nextAddr := na' } addr =
      some nb := by
  rw [storeGet_unfold]
  simp only []
  rw [find?_append_of_none hfresh]
  simp

theorem nodup_map_inj {α β : Type} {f : α → β} {l : List α}
    (hnd : (l.map f).Nodup) {e e' : α} (he : e ∈ l) (he' : e' ∈ l)
    (hk : f e = f e') : e = e' := by
  induction l with
  | nil => cases he
  | cons x rest ih =>
    rw [List.map_cons, List.nodup_cons] at hnd
    rcases List.mem_cons.mp he with rfl | he2 <;>
      rcases List.mem_cons.mp he' with heq | he2'
    · exact heq.symm
    · exfalso
      apply hnd.1
      rw [hk]
      exact List.mem_map_of_mem f he2'
    · exfalso
      apply hnd.1
      rw [heq] at hk
      rw [← hk]
      exact List.mem_map_of_mem f he2
    · exact ih hnd.2 he2 he2'

theorem unref_eq_noop (p : ShelfPack) (a : Nat) (b : Bin)
    (hsg : storeGet p a = some b) (hrc0 : b.refcount = 0) : (p.unref a).2 = p := by
  simp [ShelfPack.unref, hsg, hrc0]

theorem unref_eq_noop' (p : ShelfPack) (a : Nat)
    (hsg : storeGet p a = none) : (p.unref a).2 = p := by
  unfold ShelfPack.unref
  rw [hsg]

theorem invR_ref (p : ShelfPack) (a : Nat) (hInv : InvR p) (ha : a ∈ regAddrs p) :
    InvR (p.ref a).2 := by
  obtain ⟨e, he, hesnd⟩ := List.mem_map.mp ha
  obtain ⟨b, hb, hbid, hbrc⟩ := hInv.regStore e he
  rw [hesnd] at hb
  rw [ref_eq_of_rc_pos p a b hb hbrc]
  refine ⟨?_, hInv.regKeys, hInv.regNodup, hInv.freeNodup, hInv.regFreeDisj, ?_, ?_⟩
  · intro e' he'
    obtain ⟨b', hb', hbid', hbrc'⟩ := hInv.regStore e' he'
    by_cases hx : e'.2 = a
    · rw [hx] at hb'
      rw [hb] at hb'
      have hbb : b = b' := by injection hb'
      subst hbb
      refine ⟨{ b with refcount := b.refcount + 1 }, ?_, by simpa using hbid', by simp; omega⟩
      rw [hx]
      exact storeGet_set_self p a b _ hb p.stats p.bins p.freebins
    · exact ⟨b', by rw [storeGet_set_other p a e'.2 _ hx p.stats p.bins p.freebins]
                    exact hb', hbid', hbrc'⟩
  · intro x hx
    obtain ⟨bx, hbx, hbrcx⟩ := hInv.freeStore x hx
    have hxa : x ≠ a := fun heq => hInv.regFreeDisj a ha (heq ▸ hx)
    exact ⟨bx, by rw [storeGet_set_other p a x _ hxa p.stats p.bins p.freebins]
                  exact hbx, hbrcx⟩
  · intro x hxs
    by_cases hx : x = a
    · subst hx
      exact hInv.storeDom x (by rw [hb]; rfl)
    · rw [storeGet_set_other p a x _ hx p.stats p.bins p.freebins] at hxs
      exact hInv.storeDom x hxs

theorem invR_unref (p : ShelfPack) (a : Nat) (hInv : InvR p)
    (ha : a ∈ regAddrs p ∨ ∀ b, storeGet p a = some b → b.refcount = 0) :
    InvR (p.unref a).2 := by
  cases hsg : storeGet p a with
  | none => rw [unref_eq_noop' p a hsg]; exact hInv
  | some b =>
    by_cases hrc0 : b.refcount = 0
    · rw [unref_eq_noop p a b hsg hrc0]; exact hInv
    · have haReg : a ∈ regAddrs p := by
        rcases ha with h | h
        · exact h
        · exact absurd (h b hsg) hrc0
      obtain ⟨e, he, hesnd⟩ := List.mem_map.mp haReg
      obtain ⟨b0, hb0, hbid0, hbrc0⟩ := hInv.regStore e he
      rw [hesnd] at hb0
      rw [hsg] at hb0
      have hbb : b = b0 := by injection hb0
      subst hbb
      have hekey : e = (idKey b.id, a) := by
        cases e
        simp only at hesnd hbid0
        rw [hesnd, hbid0]
      by_cases hrc1 : b.refcount = 1
      · rw [unref_eq_of_rc_one p a b hsg hrc1]
        have hbother : ∀ e' ∈ p.bins, e'.2 ≠ a → e'.1 ≠ idKey b.id := by
          intro e' he' hne heq
          have : e' = e := nodup_keys_eq hInv.regKeys he' he (by rw [heq, hekey])
          rw [this, hekey] at hne
          exact hne rfl
        refine ⟨?_, regKeys_regDel _ _ hInv.regKeys, ?_, ?_, ?_, ?_, ?_⟩
        · intro e' he'
          obtain ⟨he'm, he'k⟩ := mem_regDel.mp he'
          obtain ⟨b', hb', hbid', hbrc'⟩ := hInv.regStore e' he'm
          have hne : e'.2 ≠ a := by
            intro heq
            rw [heq, hsg] at hb'
            have : b = b' := by injection hb'
            exact he'k (by rw [← hbid', ← this])
          exact ⟨b', by rw [storeGet_set_other p a e'.2 _ hne _ _ _]; exact hb',
            hbid', hbrc'⟩
        · exact (((List.filter_sublist p.bins).map Prod.snd).nodup hInv.regNodup :)
        · exact nodup_concat_of_not_mem hInv.freeNodup (hInv.regFreeDisj a haReg)
        · intro x hx
          obtain ⟨e', he', hesnd'⟩ := List.mem_map.mp hx
          obtain ⟨he'm, he'k⟩ := mem_regDel.mp he'
          have hxreg : x ∈ regAddrs p := hesnd' ▸ List.mem_map_of_mem Prod.snd he'm
          have hxa : x ≠ a := by
            intro heq
            have : e' = e := nodup_map_inj hInv.regNodup he'm he (by
              rw [hesnd', hesnd, heq])
            rw [this, hekey] at he'k
            exact he'k rfl
          intro hmem
          rcases List.mem_append.mp hmem with hmem | hmem
          · exact hInv.regFreeDisj x hxreg hmem
          · exact hxa (List.mem_singleton.mp hmem)
        · intro x hx
          rcases List.mem_append.mp hx with hxf | hxa
          · obtain ⟨bx, hbx, hbrcx⟩ := hInv.freeStore x hxf
            have hxa : x ≠ a := fun heq => hInv.regFreeDisj a haReg (heq ▸ hxf)
            exact ⟨bx, by rw [storeGet_set_other p a x _ hxa _ _ _]; exact hbx, hbrcx⟩
          · have hxa := List.mem_singleton.mp hxa
            refine ⟨{ b with refcount := b.refcount - 1 }, ?_, by simp [hrc1]⟩
            rw [hxa]
            exact storeGet_set_self p a b _ hsg _ _ _
        · intro x hxs
          by_cases hx : x = a
          · subst hx
            exact hInv.storeDom x (by rw [hsg]; rfl)
          · rw [storeGet_set_other p a x _ hx _ _ _] at hxs
            exact hInv.storeDom x hxs
      · rw [unref_eq_of_rc_big p a b hsg (by omega)]
        refine ⟨?_, hInv.regKeys, hInv.regNodup, hInv.freeNodup, hInv.regFreeDisj, ?_, ?_⟩
        · intro e' he'
          obtain ⟨b', hb', hbid', hbrc'⟩ := hInv.regStore e' he'
          by_cases hx : e'.2 = a
          · rw [hx, hsg] at hb'
            have hbb : b = b' := by injection hb'
            subst hbb
            refine ⟨{ b with refcount := b.refcount - 1 }, ?_, by simpa using hbid',
              by simp; omega⟩
            rw [hx]
            exact storeGet_set_self p a b _ hsg p.stats p.bins p.freebins
          · exact ⟨b', by rw [storeGet_set_other p a e'.2 _ hx p.stats p.bins p.freebins]
                          exact hb', hbid', hbrc'⟩
        · intro x hx
          obtain ⟨bx, hbx, hbrcx⟩ := hInv.freeStore x hx
          have hxa : x ≠ a := fun heq => hInv.regFreeDisj a haReg (heq ▸ hx)
          exact ⟨bx, by rw [storeGet_set_other p a x _ hxa p.stats p.bins p.freebins]
                        exact hbx, hbrcx⟩
        · intro x hxs
          by_cases hx : x = a
          · subst hx
            exact hInv.storeDom x (by rw [hsg]; rfl)
          · rw [storeGet_set_other p a x _ hx p.stats p.bins p.freebins] at hxs
            exact hInv.storeDom x hxs

theorem regAddrs_regSet_sub (l : List (BinId × Nat)) (k : BinId) (addr : Nat)
    (x : Nat) (hx : x ∈ (regSet l k addr).map Prod.snd) :
    x ∈ l.map Prod.snd ∨ x = addr := by
  obtain ⟨e, he, hesnd⟩ := List.mem_map.mp hx
  rcases mem_regSet.mp he with ⟨hem, -⟩ | rfl
  · exact Or.inl (hesnd ▸ List.mem_map_of_mem Prod.snd hem)
  · exact Or.inr hesnd.symm

theorem regNodup_regSet (p : ShelfPack) (hInv : InvR p) (k : BinId) :
    ((regSet p.bins k p.nextAddr).map Prod.snd).Nodup := by
  unfold regSet
  rw [List.map_append, List.nodup_append]
  refine ⟨((List.filter_sublist p.bins).map Prod.snd).nodup hInv.regNodup, by simp, ?_⟩
  intro x hx
  obtain ⟨e, he, hesnd⟩ := List.mem_map.mp hx
  have hem := (List.mem_filter.mp he).1
  obtain ⟨b, hb, -, -⟩ := hInv.regStore e hem
  have := hInv.storeDom e.2 (by rw [hb]; rfl)
  simp only [List.map_cons, List.map_nil, List.mem_singleton]
  omega

theorem invR_allocFreebin (p : ShelfPack) (i : Nat) (w h : Int) (fid : BinId)
    (a : Nat) (bin : Bin) (hInv : InvR p) (hi : p.freebins[i]? = some a)
    (hsg : storeGet p a = some bin) :
    InvR (p.allocFreebin i w h fid).2 := by
  have hfresh := storeGet_nextAddr_none p hInv
  have hfresh' : p.store.find? (fun e => e.1 = p.nextAddr) = none := by
    rw [storeGet_unfold] at hfresh
    exact Option.map_eq_none'.mp hfresh
  have heq : (p.allocFreebin i w h fid).2 =
      { p with freebins := p.freebins.eraseIdx i,
               store := p.store ++ [(p.nextAddr,
                 ⟨fid, bin.x, bin.y, w, h, bin.maxw, bin.maxh, 1⟩)],
               nextAddr := p.nextAddr + 1,
               bins := regSet p.bins (idKey fid) p.nextAddr,
               stats := statsIncr p.stats h } := by
    rw [allocFreebin_eq p i w h fid a bin hi hsg hfresh]
  rw [heq]
  refine ⟨?_, regKeys_regSet _ _ _ hInv.regKeys, regNodup_regSet p hInv _, ?_, ?_, ?_, ?_⟩
  · intro e' he'
    rcases mem_regSet.mp he' with ⟨he'm, -⟩ | rfl
    · obtain ⟨b', hb', hbid', hbrc'⟩ := hInv.regStore e' he'm
      have hne : e'.2 ≠ p.nextAddr := by
        have := hInv.storeDom e'.2 (by rw [hb']; rfl)
        omega
      exact ⟨b', by rw [storeGet_snoc_other p p.nextAddr e'.2 _ hne _ _ _ _ _]
                    exact hb', hbid', hbrc'⟩
    · exact ⟨⟨fid, bin.x, bin.y, w, h, bin.maxw, bin.maxh, 1⟩,
        storeGet_snoc_self p p.nextAddr _ hfresh' _ _ _ _ _, rfl, by norm_num⟩
  · exact (List.eraseIdx_sublist p.freebins i).nodup hInv.freeNodup
  · intro x hx hmem
    have hmem' := List.mem_of_mem_eraseIdx hmem
    rcases regAddrs_regSet_sub p.bins (idKey fid) p.nextAddr x hx with hxr | hxeq
    · exact hInv.regFreeDisj x hxr hmem'
    · obtain ⟨bx, hbx, -⟩ := hInv.freeStore x hmem'
      have := hInv.storeDom x (by rw [hbx]; rfl)
      omega
  · intro x hx
    have hxf := List.mem_of_mem_eraseIdx hx
    obtain ⟨bx, hbx, hbrcx⟩ := hInv.freeStore x hxf
    have hne : x ≠ p.nextAddr := by
      have := hInv.storeDom x (by rw [hbx]; rfl)
      omega
    exact ⟨bx, by rw [storeGet_snoc_other p p.nextAddr x _ hne _ _ _ _ _]
                  exact hbx, hbrcx⟩
  · intro x hxs
    show x < p.nextAddr + 1
    by_cases hx : x = p.nextAddr
    · omega
    · rw [storeGet_snoc_other p p.nextAddr x _ hx _ _ _ _ _] at hxs
      have := hInv.storeDom x hxs
      omega

theorem invR_allocShelf (p : ShelfPack) (j : Nat) (w h : Int) (fid : BinId)
    (s : Shelf) (hInv : InvR p) (hj : p.shelves[j]? = some s)
    (hw : w ≤ s.free) (hh : h ≤ s.h) :
    InvR (p.allocShelf j w h fid).2 := by
  have hfresh := storeGet_nextAddr_none p hInv
  have hfresh' : p.store.find? (fun e => e.1 = p.nextAddr) = none := by
    rw [storeGet_unfold] at hfresh
    exact Option.map_eq_none'.mp hfresh
  have heq : (p.allocShelf j w h fid).2 =
      { p with shelves := p.shelves.set j { s with x := s.x + w, free := s.free - w },
               store := p.store ++ [(p.nextAddr, ⟨fid, s.x, s.y, w, h, w, s.h, 1⟩)],
               nextAddr := p.nextAddr + 1,
               bins := regSet p.bins (idKey fid) p.nextAddr,
               stats := statsIncr p.stats h } := by
    rw [allocShelf_eq p j w h fid s hj hw hh hfresh]
  rw [heq]
  refine ⟨?_, regKeys_regSet _ _ _ hInv.regKeys, regNodup_regSet p hInv _,
    hInv.freeNodup, ?_, ?_, ?_⟩
  · intro e' he'
    rcases mem_regSet.mp he' with ⟨he'm, -⟩ | rfl
    · obtain ⟨b', hb', hbid', hbrc'⟩ := hInv.regStore e' he'm
      have hne : e'.2 ≠ p.nextAddr := by
        have := hInv.storeDom e'.2 (by rw [hb']; rfl)
        omega
      exact ⟨b', by rw [storeGet_snoc_other p p.nextAddr e'.2 _ hne _ _ _ _ _]
                    exact hb', hbid', hbrc'⟩
    · exact ⟨⟨fid, s.x, s.y, w, h, w, s.h, 1⟩,
        storeGet_snoc_self p p.nextAddr _ hfresh' _ _ _ _ _, rfl, by norm_num⟩
  · intro x hx hmem
    rcases regAddrs_regSet_sub p.bins (idKey fid) p.nextAddr x hx with hxr | hxeq
    · exact hInv.regFreeDisj x hxr hmem
    · obtain ⟨bx, hbx, -⟩ := hInv.freeStore x hmem
      have := hInv.storeDom x (by rw [hbx]; rfl)
      omega
  · intro x hx
    obtain ⟨bx, hbx, hbrcx⟩ := hInv.freeStore x hx
    have hne : x ≠ p.nextAddr := by
      have := hInv.storeDom x (by rw [hbx]; rfl)
      omega
    exact ⟨bx, by rw [storeGet_snoc_other p p.nextAddr x _ hne _ _ _ _ _]
                  exact hbx, hbrcx⟩
  · intro x hxs
    show x < p.nextAddr + 1
    by_cases hx : x = p.nextAddr
    · omega
    · rw [storeGet_snoc_other p p.nextAddr x _ hx _ _ _ _ _] at hxs
      have := hInv.storeDom x hxs
      omega

theorem invR_make (width height : Int) (ar : Bool) :
    InvR (ShelfPack.make width height ar) := by
  refine ⟨?_, ?_, ?_, ?_, ?_, ?_, ?_⟩ <;>
    simp [ShelfPack.make, regAddrs, storeGet]

theorem invR_resize (p : ShelfPack) (w h : Int) (hInv : InvR p) :
    InvR (p.resize w h) :=
  ⟨hInv.regStore, hInv.regKeys, hInv.regNodup, hInv.freeNodup, hInv.regFreeDisj,
   hInv.freeStore, hInv.storeDom⟩

theorem invR_shrink (p : ShelfPack) (hInv : InvR p) : InvR p.shrink := by
  unfold ShelfPack.shrink
  by_cases hl : p.shelves.length > 0
  · rw [if_pos hl]
    exact invR_resize p _ _ hInv
  · rw [if_neg hl]
    exact hInv

theorem invR_clear (p : ShelfPack) (hInv : InvR p) : InvR p.clear := by
  refine ⟨?_, ?_, ?_, ?_, ?_, ?_, hInv.storeDom⟩ <;>
    simp [ShelfPack.clear, regAddrs]

theorem invR_packOneCore (retry : ShelfPack → PackResult × ShelfPack)
    (w h : Int) (fid : BinId) (p : ShelfPack) (hInv : InvR p)
    (hretry : ∀ q, InvR q → InvR (retry q).2) :
    InvR (packOneCore retry w h fid p).2 := by
  unfold packOneCore
  have hsufF : ∀ k : Nat, p.freebins[k]? = p.freebins[0 + k]? := by
    intro k
    rw [Nat.zero_add]
  have hsufS : ∀ k : Nat, p.shelves[k]? = p.shelves[0 + k]? := by
    intro k
    rw [Nat.zero_add]
  cases hfb : fbScan p w h p.freebins 0 ⟨-1, -1, none⟩ with
  | exact i =>
    show InvR (p.allocFreebin i w h fid).2
    obtain ⟨a, bin, hi, hsg, _, _⟩ := fbScan_exact_spec p w h p.freebins 0 _ i hsufF hfb
    exact invR_allocFreebin p i w h fid a bin hInv hi hsg
  | done best1 =>
    have hok1 : FbBestOK p w h best1 ∧ best1.shelf = (-1 : Int) :=
      fbScan_done_spec p w h p.freebins 0 _ best1 hsufF hfb (Or.inl rfl)
    show InvR ((match shScan w h p.shelves 0 0 best1 with
          | ShScan.exact j => p.allocShelf j w h fid
          | ShScan.done best y =>
            if best.freebin ≠ -1 then p.allocFreebin best.freebin.toNat w h fid
            else if best.shelf ≠ -1 then p.allocShelf best.shelf.toNat w h fid
            else packFallback retry w h fid p y).2)
    cases hsh : shScan w h p.shelves 0 0 best1 with
    | exact j =>
      show InvR (p.allocShelf j w h fid).2
      obtain ⟨s, hj, hw2, hh2⟩ := shScan_exact_spec w h p.shelves p.shelves 0 0 best1 j hsufS hsh
      exact invR_allocShelf p j w h fid s hInv hj hw2 (by omega)
    | done best2 y =>
      show InvR ((if best2.freebin ≠ -1 then p.allocFreebin best2.freebin.toNat w h fid
            else if best2.shelf ≠ -1 then p.allocShelf best2.shelf.toNat w h fid
            else packFallback retry w h fid p y).2)
      have hok2 : FbBestOK p w h best2 ∧ ShBestOK p.shelves w h best2 :=
        shScan_done_spec p w h p.shelves 0 0 best1 best2 y hsufS hsh hok1.1
          (Or.inl hok1.2)
      by_cases hbf : best2.freebin ≠ -1
      · rw [if_pos hbf]
        rcases hok2.1 with h1 | ⟨a, bin, hi, hsg, _, _⟩
        · exact absurd h1 hbf
        · exact invR_allocFreebin p _ w h fid a bin hInv hi hsg
      · rw [if_neg hbf]
        by_cases hbs : best2.shelf ≠ -1
        · rw [if_pos hbs]
          rcases hok2.2 with h1 | ⟨s, hj, hw2, hh2⟩
          · exact absurd h1 hbs
          · exact invR_allocShelf p _ w h fid s hInv hj hw2 hh2
        · rw [if_neg hbs]
          unfold packFallback
          by_cases hfit : h ≤ p.h - y ∧ w ≤ p.w
          · rw [if_pos hfit]
            have hInv' : InvR { p with shelves := p.shelves ++ [Shelf.make y p.w h 0] } :=
              ⟨hInv.regStore, hInv.regKeys, hInv.regNodup, hInv.freeNodup,
               hInv.regFreeDisj, hInv.freeStore, hInv.storeDom⟩
            have hget : ({ p with shelves := p.shelves ++ [Shelf.make y p.w h 0] } :
                ShelfPack).shelves[p.shelves.length]? = some (Shelf.make y p.w h 0) := by
              simp
            exact invR_allocShelf _ p.shelves.length w h fid (Shelf.make y p.w h 0)
              hInv' hget (by simpa [Shelf.make] using hfit.2) (le_refl h)
          · rw [if_neg hfit]
            by_cases har : p.autoResize
            · rw [if_pos har]
              exact hretry _ (invR_resize p _ _ hInv)
            · rw [if_neg har]
              exact hInv

theorem invR_packOne (fuel : Nat) (w h : Int) (id? : Option BinId) (p : ShelfPack)
    (hInv : InvR p) : InvR (ShelfPack.packOne fuel w h id? p).2 := by
  induction fuel generalizing id? p with
  | zero => exact hInv
  | succ fuel ih =>
    cases id? with
    | some id =>
      rw [show ShelfPack.packOne (fuel + 1) w h (some id) p =
          (match p.getBin id with
           | some a => (.ok (some a), (p.ref a).2)
           | none => packOneCore (ShelfPack.packOne fuel w h (some id)) w h id p) from rfl]
      cases hg : p.getBin id with
      | some a =>
        show InvR (p.ref a).2
        exact invR_ref p a hInv (List.mem_map.mpr ⟨(idKey id, a), regGet_mem hg, rfl⟩)
      | none =>
        show InvR (packOneCore (ShelfPack.packOne fuel w h (some id)) w h id p).2
        exact invR_packOneCore _ w h id p hInv (fun q hq => ih (some id) q hq)
    | none =>
      show InvR (packOneCore (ShelfPack.packOne fuel w h
        (some (BinId.num (p.maxId + 1)))) w h (BinId.num (p.maxId + 1))
        { p with maxId := p.maxId + 1 }).2
      have hInv' : InvR { p with maxId := p.maxId + 1 } :=
        ⟨hInv.regStore, hInv.regKeys, hInv.regNodup, hInv.freeNodup,
         hInv.regFreeDisj, hInv.freeStore, hInv.storeDom⟩
      exact invR_packOneCore _ w h _ _ hInv' (fun q hq => ih _ q hq)

theorem packLoop_cons_skip1 (fuel : Nat) (inPlace : Bool) (it : InputItem)
    (rest : List InputItem) (p : ShelfPack) (hw : jsOr it.w it.w = none) :
    (ShelfPack.packLoop fuel inPlace (it :: rest) p).2.2 =
      (ShelfPack.packLoop fuel inPlace rest p).2.2 := by
  cases hh : jsOr it.h it.h <;> simp only [ShelfPack.packLoop, hw, hh]

theorem packLoop_cons_skip2 (fuel : Nat) (inPlace : Bool) (it : InputItem)
    (rest : List InputItem) (p : ShelfPack) (wv : Int)
    (hw : jsOr it.w it.w = some wv) (hh : jsOr it.h it.h = none) :
    (ShelfPack.packLoop fuel inPlace (it :: rest) p).2.2 =
      (ShelfPack.packLoop fuel inPlace rest p).2.2 := by
  simp only [ShelfPack.packLoop, hw, hh]

theorem packLoop_cons_step (fuel : Nat) (inPlace : Bool) (it : InputItem)
    (rest : List InputItem) (p : ShelfPack) (wv hv : Int)
    (hw : jsOr it.w it.w = some wv) (hh : jsOr it.h it.h = some hv) :
    (ShelfPack.packLoop fuel inPlace (it :: rest) p).2.2 =
      (ShelfPack.packLoop fuel inPlace rest
        (ShelfPack.packOne fuel wv hv it.id p).2).2.2 := by
  simp only [ShelfPack.packLoop, hw, hh]
  cases hres : ShelfPack.packOne fuel wv hv it.id p with
  | mk r p' =>
    cases r with
    | ok ob =>
      cases ob with
      | some a =>
        cases inPlace with
        | true => rfl
        | false => rfl
      | none => rfl
    | internalError => rfl
    | fuelOut => rfl

theorem invR_packLoop (fuel : Nat) (inPlace : Bool) (items : List InputItem)
    (p : ShelfPack) (hInv : InvR p) :
    InvR (ShelfPack.packLoop fuel inPlace items p).2.2 := by
  induction items generalizing p with
  | nil => exact hInv
  | cons it rest ih =>
    cases hw : jsOr it.w it.w with
    | none =>
      rw [packLoop_cons_skip1 fuel inPlace it rest p hw]
      exact ih p hInv
    | some wv =>
      cases hh : jsOr it.h it.h with
      | none =>
        rw [packLoop_cons_skip2 fuel inPlace it rest p wv hw hh]
        exact ih p hInv
      | some hv =>
        rw [packLoop_cons_step fuel inPlace it rest p wv hv hw hh]
        exact ih _ (invR_packOne fuel wv hv it.id p hInv)

theorem invR_pack (fuel : Nat) (items : List InputItem) (inPlace : Bool)
    (p : ShelfPack) (hInv : InvR p) :
    InvR (ShelfPack.pack fuel items inPlace p).2.2 := by
  unfold ShelfPack.pack
  exact invR_shrink _ (invR_packLoop fuel inPlace items p hInv)

/-- Every state reachable under the ref/unref discipline satisfies the
registry/free-pool invariant. -/
theorem invR_reach (d : Bool) (p : ShelfPack) (hr : Reach d p) : InvR p := by
  induction hr with
  | init width height ar => exact invR_make width height ar
  | packOne fuel w h id? p hp hw hh ih => exact invR_packOne fuel w h id? p ih
  | pack fuel items inPlace p hp hitems ih => exact invR_pack fuel items inPlace p ih
  | ref a p hp ha ih => exact invR_ref p a ih ha
  | unref a p hp ha ih => exact invR_unref p a ih ha
  | resize w h p hp ih => exact invR_resize p w h ih
  | shrink p hp ih => exact invR_shrink p ih
  | clear p hp ih => exact invR_clear p ih

/-! ## InvG: preservation of the geometry -/

theorem tiled_congr {y0 : Int} {l : List Shelf} (ht : Tiled y0 l) :
    ∀ l' : List Shelf, l'.length = l.length →
    (∀ (k : Nat) (s' : Shelf), l'[k]? = some s' →
      ∃ s, l[k]? = some s ∧ s'.y = s.y ∧ s'.h = s.h) →
    Tiled y0 l' := by
  induction ht with
  | nil y1 =>
    intro l' hlen hgeom
    rw [List.length_nil, List.length_eq_zero] at hlen
    rw [hlen]
    exact Tiled.nil y1
  | cons y1 t rest hty hth hrest ih =>
    intro l' hlen hgeom
    cases l' with
    | nil => simp at hlen
    | cons t' rest' =>
      obtain ⟨s0, hs0, hy0, hh0⟩ := hgeom 0 t' (by simp)
      have hs0' : t = s0 := by simpa using hs0
      subst hs0'
      refine Tiled.cons y1 t' rest' (by omega) (by omega) ?_
      rw [show y1 + t'.h = y1 + t.h by omega]
      refine ih rest' (by simpa using hlen) ?_
      intro k s' hk
      obtain ⟨s, hs, h1, h2⟩ := hgeom (k + 1) s' (by simpa using hk)
      exact ⟨s, by simpa using hs, h1, h2⟩

theorem isSome_getElem?_of_lt {l : List α} {k : Nat} (h : k < l.length) :
    ∃ x, l[k]? = some x := by
  rw [List.getElem?_eq_getElem h]
  exact ⟨l[k], rfl⟩

theorem invG_transfer (p q : ShelfPack)
    (hshlen : q.shelves.length = p.shelves.length)
    (hshgeom : ∀ (k : Nat) (s' : Shelf), q.shelves[k]? = some s' →
      ∃ s, p.shelves[k]? = some s ∧ s'.y = s.y ∧ s'.h = s.h ∧ s'.x = s.x)
    (hlive : ∀ x, x ∈ liveAddrs q ↔ x ∈ liveAddrs p)
    (hsg : ∀ x, x ∈ liveAddrs q → ∀ b', storeGet q x = some b' →
      ∃ b, storeGet p x = some b ∧ b'.x = b.x ∧ b'.y = b.y ∧ b'.w = b.w ∧
        b'.h = b.h ∧ b'.maxw = b.maxw ∧ b'.maxh = b.maxh)
    (hg : InvG p) : InvG q := by
  refine ⟨?_, ?_, ?_⟩
  · exact tiled_congr hg.tiled q.shelves hshlen
      (fun k s' hk => (hshgeom k s' hk).imp (fun s hs => ⟨hs.1, hs.2.1, hs.2.2.1⟩))
  · intro x hx b' hb'
    obtain ⟨b, hb, hbx, hby, hbw, hbh, hbmw, hbmh⟩ := hsg x hx b' hb'
    obtain ⟨k, s, hk, hsy, hsmh, hsb, hsw, hsh⟩ := hg.onShelf x ((hlive x).mp hx) b hb
    have hklt : k < q.shelves.length := by
      rw [hshlen]
      rw [List.getElem?_eq_some_iff] at hk
      exact hk.1
    obtain ⟨s', hs'⟩ := isSome_getElem?_of_lt hklt
    obtain ⟨s2, hs2, hs2y, hs2h, hs2x⟩ := hshgeom k s' hs'
    have hss : s = s2 := by
      rw [hk] at hs2
      injection hs2
    subst hss
    exact ⟨k, s', hs', by omega, by omega, by omega, by omega, by omega⟩
  · intro x1 hx1 x2 hx2 hne b1 b2 hb1 hb2
    obtain ⟨c1, hc1, e1⟩ := hsg x1 hx1 b1 hb1
    obtain ⟨c2, hc2, e2⟩ := hsg x2 hx2 b2 hb2
    have hnd := hg.disj x1 ((hlive x1).mp hx1) x2 ((hlive x2).mp hx2) hne c1 c2 hc1 hc2
    intro hov
    apply hnd
    have hf1 : binFootprint b1 = binFootprint c1 := by
      unfold binFootprint
      obtain ⟨e1a, e1b, -, -, e1c, e1d⟩ := e1
      rw [e1a, e1b, e1c, e1d]
    have hf2 : binFootprint b2 = binFootprint c2 := by
      unfold binFootprint
      obtain ⟨e2a, e2b, -, -, e2c, e2d⟩ := e2
      rw [e2a, e2b, e2c, e2d]
    rwa [hf1, hf2] at hov

theorem invG_make (width height : Int) (ar : Bool) :
    InvG (ShelfPack.make width height ar) := by
  refine ⟨Tiled.nil 0, ?_, ?_⟩ <;>
    · intro x hx
      simp [ShelfPack.make, liveAddrs, regAddrs] at hx

theorem invG_clear (p : ShelfPack) : InvG p.clear := by
  refine ⟨Tiled.nil 0, ?_, ?_⟩ <;>
    · intro x hx
      simp [ShelfPack.clear, liveAddrs, regAddrs] at hx

theorem invG_resize (p : ShelfPack) (w h : Int) (hg : InvG p) : InvG (p.resize w h) := by
  refine invG_transfer p _ (by simp [ShelfPack.resize]) ?_ (fun x => Iff.rfl)
    (fun x hx b' hb' => ⟨b', hb', rfl, rfl, rfl, rfl, rfl, rfl⟩) hg
  intro k s' hk
  simp only [ShelfPack.resize, List.getElem?_map] at hk
  cases hp : p.shelves[k]? with
  | none => rw [hp] at hk; exact absurd hk (by simp)
  | some s =>
    rw [hp] at hk
    have : Shelf.resize s w = s' := by injection hk
    exact ⟨s, rfl, by rw [← this]; rfl, by rw [← this]; rfl, by rw [← this]; rfl⟩

theorem invG_shrink (p : ShelfPack) (hg : InvG p) : InvG p.shrink := by
  unfold ShelfPack.shrink
  by_cases hl : p.shelves.length > 0
  · rw [if_pos hl]
    exact invG_resize p _ _ hg
  · rw [if_neg hl]
    exact hg

theorem invG_ref (p : ShelfPack) (a : Nat) (hInv : InvR p) (ha : a ∈ regAddrs p)
    (hg : InvG p) : InvG (p.ref a).2 := by
  obtain ⟨e, he, hesnd⟩ := List.mem_map.mp ha
  obtain ⟨b, hb, hbid, hbrc⟩ := hInv.regStore e he
  rw [hesnd] at hb
  rw [ref_eq_of_rc_pos p a b hb hbrc]
  refine invG_transfer p _ rfl
    (fun k s' hk => ⟨s', hk, rfl, rfl, rfl⟩) (fun x => Iff.rfl) ?_ hg
  intro x hx b' hb'
  by_cases hxa : x = a
  · subst hxa
    rw [storeGet_set_self p x b _ hb p.stats p.bins p.freebins] at hb'
    have : { b with refcount := b.refcount + 1 } = b' := by injection hb'
    exact ⟨b, hb, by rw [← this], by rw [← this], by rw [← this],
      by rw [← this], by rw [← this], by rw [← this]⟩
  · rw [storeGet_set_other p a x _ hxa p.stats p.bins p.freebins] at hb'
    exact ⟨b', hb', rfl, rfl, rfl, rfl, rfl, rfl⟩

theorem liveAddrs_lt_nextAddr (p : ShelfPack) (hInv : InvR p) :
    ∀ x ∈ liveAddrs p, x < p.nextAddr := by
  intro x hx
  rcases List.mem_append.mp hx with hxr | hxf
  · obtain ⟨e, he, hesnd⟩ := List.mem_map.mp hxr
    obtain ⟨b, hb, -, -⟩ := hInv.regStore e he
    rw [hesnd] at hb
    exact hInv.storeDom x (by rw [hb]; rfl)
  · obtain ⟨b, hb, -⟩ := hInv.freeStore x hxf
    exact hInv.storeDom x (by rw [hb]; rfl)

theorem invG_unref (p : ShelfPack) (a : Nat) (hInv : InvR p)
    (ha : a ∈ regAddrs p ∨ ∀ b, storeGet p a = some b → b.refcount = 0)
    (hg : InvG p) : InvG (p.unref a).2 := by
  cases hsg : storeGet p a with
  | none => rw [unref_eq_noop' p a hsg]; exact hg
  | some b =>
    by_cases hrc0 : b.refcount = 0
    · rw [unref_eq_noop p a b hsg hrc0]; exact hg
    · have haReg : a ∈ regAddrs p := by
        rcases ha with h | h
        · exact h
        · exact absurd (h b hsg) hrc0
      obtain ⟨e, he, hesnd⟩ := List.mem_map.mp haReg
      obtain ⟨b0, hb0, hbid0, hbrc0⟩ := hInv.regStore e he
      rw [hesnd] at hb0
      rw [hsg] at hb0
      have hbb : b = b0 := by injection hb0
      subst hbb
      have hekey : e = (idKey b.id, a) := by
        cases e
        simp only at hesnd hbid0
        rw [hesnd, hbid0]
      by_cases hrc1 : b.refcount = 1
      · rw [unref_eq_of_rc_one p a b hsg hrc1]
        refine invG_transfer p _ rfl (fun k s' hk => ⟨s', hk, rfl, rfl, rfl⟩) ?_ ?_ hg
        · intro x
          constructor
          · intro hx
            rcases List.mem_append.mp hx with hxr | hxf
            · obtain ⟨e', he', hesnd'⟩ := List.mem_map.mp hxr
              exact List.mem_append.mpr
                (Or.inl (List.mem_map.mpr ⟨e', (mem_regDel.mp he').1, hesnd'⟩))
            · rcases List.mem_append.mp hxf with hxf' | hxa
              · exact List.mem_append.mpr (Or.inr hxf')
              · rw [List.mem_singleton.mp hxa]
                exact List.mem_append.mpr (Or.inl haReg)
          · intro hx
            rcases List.mem_append.mp hx with hxr | hxf
            · obtain ⟨e', he', hesnd'⟩ := List.mem_map.mp hxr
              by_cases hk : e'.1 = idKey b.id
              · have hee : e' = e := nodup_map_inj hInv.regKeys he' he (by rw [hk, hekey])
                refine List.mem_append.mpr (Or.inr (List.mem_append.mpr (Or.inr ?_)))
                rw [List.mem_singleton, ← hesnd', hee, hekey]
              · exact List.mem_append.mpr
                  (Or.inl (List.mem_map.mpr ⟨e', mem_regDel.mpr ⟨he', hk⟩, hesnd'⟩))
            · exact List.mem_append.mpr (Or.inr (List.mem_append.mpr (Or.inl hxf)))
        · intro x hx b' hb'
          by_cases hxa : x = a
          · subst hxa
            rw [storeGet_set_self p x b { b with refcount := b.refcount - 1 } hsg
              (statsDecr p.stats b.h) (regDel p.bins (idKey b.id)) (p.freebins ++ [x])]
              at hb'
            have hbb' : { b with refcount := b.refcount - 1 } = b' := by injection hb'
            exact ⟨b, hsg, by rw [← hbb'], by rw [← hbb'], by rw [← hbb'],
              by rw [← hbb'], by rw [← hbb'], by rw [← hbb']⟩
          · rw [storeGet_set_other p a x { b with refcount := b.refcount - 1 } hxa
              (statsDecr p.stats b.h) (regDel p.bins (idKey b.id)) (p.freebins ++ [a])]
              at hb'
            exact ⟨b', hb', rfl, rfl, rfl, rfl, rfl, rfl⟩
      · have hrc2 : 2 ≤ b.refcount := by omega
        rw [unref_eq_of_rc_big p a b hsg hrc2]
        refine invG_transfer p _ rfl (fun k s' hk => ⟨s', hk, rfl, rfl, rfl⟩)
          (fun x => Iff.rfl) ?_ hg
        intro x hx b' hb'
        by_cases hxa : x = a
        · subst hxa
          rw [storeGet_set_self p x b { b with refcount := b.refcount - 1 } hsg
            p.stats p.bins p.freebins] at hb'
          have hbb' : { b with refcount := b.refcount - 1 } = b' := by injection hb'
          exact ⟨b, hsg, by rw [← hbb'], by rw [← hbb'], by rw [← hbb'],
            by rw [← hbb'], by rw [← hbb'], by rw [← hbb']⟩
        · rw [storeGet_set_other p a x { b with refcount := b.refcount - 1 } hxa
            p.stats p.bins p.freebins] at hb'
          exact ⟨b', hb', rfl, rfl, rfl, rfl, rfl, rfl⟩

theorem invG_allocFreebin (p : ShelfPack) (i : Nat) (w h : Int) (fid : BinId)
    (a : Nat) (bin : Bin) (hInv : InvR p) (hi : p.freebins[i]? = some a)
    (hsg : storeGet p a = some bin) (hw : w ≤ bin.maxw) (hh : h ≤ bin.maxh)
    (hg : InvG p) : InvG (p.allocFreebin i w h fid).2 := by
  have hfresh := storeGet_nextAddr_none p hInv
  have hfresh' : p.store.find? (fun e => e.1 = p.nextAddr) = none := by
    rw [storeGet_unfold] at hfresh
    exact Option.map_eq_none'.mp hfresh
  have hafree : a ∈ p.freebins := List.getElem?_mem hi
  have haLive : a ∈ liveAddrs p := List.mem_append.mpr (Or.inr hafree)
  have heq : (p.allocFreebin i w h fid).2 =
      { p with freebins := p.freebins.eraseIdx i,
               store := p.store ++ [(p.nextAddr,
                 ⟨fid, bin.x, bin.y, w, h, bin.maxw, bin.maxh, 1⟩)],
               nextAddr := p.nextAddr + 1,
               bins := regSet p.bins (idKey fid) p.nextAddr,
               stats := statsIncr p.stats h } := by
    rw [allocFreebin_eq p i w h fid a bin hi hsg hfresh]
  rw [heq]
  have hold : ∀ x, x ∈ (regSet p.bins (idKey fid) p.nextAddr).map Prod.snd ++
        p.freebins.eraseIdx i → x ≠ p.nextAddr → x ∈ liveAddrs p ∧ x ≠ a := by
    intro x hx hne
    rcases List.mem_append.mp hx with hxr | hxf
    · rcases regAddrs_regSet_sub p.bins (idKey fid) p.nextAddr x hxr with hxp | hxeq
      · exact ⟨List.mem_append.mpr (Or.inl hxp),
          fun hxa => hInv.regFreeDisj x hxp (hxa ▸ hafree)⟩
      · exact absurd hxeq hne
    · exact ⟨List.mem_append.mpr (Or.inr (List.mem_of_mem_eraseIdx hxf)),
        fun hxa => not_mem_eraseIdx_of_nodup hInv.freeNodup hi (hxa ▸ hxf)⟩
  refine ⟨hg.tiled, ?_, ?_⟩
  · intro x hx b' hb'
    by_cases hxn : x = p.nextAddr
    · subst hxn
      rw [storeGet_snoc_self p p.nextAddr ⟨fid, bin.x, bin.y, w, h, bin.maxw, bin.maxh, 1⟩
        hfresh' p.shelves (p.freebins.eraseIdx i) (statsIncr p.stats h)
        (regSet p.bins (idKey fid) p.nextAddr) (p.nextAddr + 1)] at hb'
      have hbb' : (⟨fid, bin.x, bin.y, w, h, bin.maxw, bin.maxh, 1⟩ : Bin) = b' := by
        injection hb'
      rw [← hbb']
      obtain ⟨k, s, hk, hy, hmh, hxb, -, -⟩ := hg.onShelf a haLive bin hsg
      exact ⟨k, s, hk, hy, hmh, hxb, hw, hh⟩
    · rw [storeGet_snoc_other p p.nextAddr x
        ⟨fid, bin.x, bin.y, w, h, bin.maxw, bin.maxh, 1⟩ hxn p.shelves
        (p.freebins.eraseIdx i) (statsIncr p.stats h)
        (regSet p.bins (idKey fid) p.nextAddr) (p.nextAddr + 1)] at hb'
      exact hg.onShelf x (hold x hx hxn).1 b' hb'
  · intro x1 hx1 x2 hx2 hne b1 b2 hb1 hb2
    by_cases h1 : x1 = p.nextAddr
    · subst h1
      have h2 : x2 ≠ p.nextAddr := Ne.symm hne
      rw [storeGet_snoc_self p p.nextAddr ⟨fid, bin.x, bin.y, w, h, bin.maxw, bin.maxh, 1⟩
        hfresh' p.shelves (p.freebins.eraseIdx i) (statsIncr p.stats h)
        (regSet p.bins (idKey fid) p.nextAddr) (p.nextAddr + 1)] at hb1
      rw [storeGet_snoc_other p p.nextAddr x2
        ⟨fid, bin.x, bin.y, w, h, bin.maxw, bin.maxh, 1⟩ h2 p.shelves
        (p.freebins.eraseIdx i) (statsIncr p.stats h)
        (regSet p.bins (idKey fid) p.nextAddr) (p.nextAddr + 1)] at hb2
      have hbb1 : (⟨fid, bin.x, bin.y, w, h, bin.maxw, bin.maxh, 1⟩ : Bin) = b1 := by
        injection hb1
      obtain ⟨hx2p, hx2a⟩ := hold x2 hx2 h2
      have hnd := hg.disj a haLive x2 hx2p (Ne.symm hx2a) bin b2 hsg hb2
      rw [← hbb1]
      have hfp : binFootprint (⟨fid, bin.x, bin.y, w, h, bin.maxw, bin.maxh, 1⟩ : Bin) =
          binFootprint bin := rfl
      rw [hfp]
      exact hnd
    · by_cases h2 : x2 = p.nextAddr
      · subst h2
        rw [storeGet_snoc_self p p.nextAddr ⟨fid, bin.x, bin.y, w, h, bin.maxw, bin.maxh, 1⟩
          hfresh' p.shelves (p.freebins.eraseIdx i) (statsIncr p.stats h)
          (regSet p.bins (idKey fid) p.nextAddr) (p.nextAddr + 1)] at hb2
        rw [storeGet_snoc_other p p.nextAddr x1
          ⟨fid, bin.x, bin.y, w, h, bin.maxw, bin.maxh, 1⟩ h1 p.shelves
          (p.freebins.eraseIdx i) (statsIncr p.stats h)
          (regSet p.bins (idKey fid) p.nextAddr) (p.nextAddr + 1)] at hb1
        have hbb2 : (⟨fid, bin.x, bin.y, w, h, bin.maxw, bin.maxh, 1⟩ : Bin) = b2 := by
          injection hb2
        obtain ⟨hx1p, hx1a⟩ := hold x1 hx1 h1
        have hnd := hg.disj x1 hx1p a haLive hx1a b1 bin hb1 hsg
        rw [← hbb2]
        have hfp : binFootprint (⟨fid, bin.x, bin.y, w, h, bin.maxw, bin.maxh, 1⟩ : Bin) =
            binFootprint bin := rfl
        rw [hfp]
        exact hnd
      · rw [storeGet_snoc_other p p.nextAddr x1
          ⟨fid, bin.x, bin.y, w, h, bin.maxw, bin.maxh, 1⟩ h1 p.shelves
          (p.freebins.eraseIdx i) (statsIncr p.stats h)
          (regSet p.bins (idKey fid) p.nextAddr) (p.nextAddr + 1)] at hb1
        rw [storeGet_snoc_other p p.nextAddr x2
          ⟨fid, bin.x, bin.y, w, h, bin.maxw, bin.maxh, 1⟩ h2 p.shelves
          (p.freebins.eraseIdx i) (statsIncr p.stats h)
          (regSet p.bins (idKey fid) p.nextAddr) (p.nextAddr + 1)] at hb2
        exact hg.disj x1 (hold x1 hx1 h1).1 x2 (hold x2 hx2 h2).1 hne b1 b2 hb1 hb2

theorem overlap_symm {r1 r2 : Rect} (h : RectsOverlap r1 r2) : RectsOverlap r2 r1 :=
  ⟨by rw [max_comm, min_comm]; exact h.1, by rw [max_comm, min_comm]; exact h.2⟩

theorem invG_allocShelf (p : ShelfPack) (j : Nat) (w h : Int) (fid : BinId)
    (s : Shelf) (hInv : InvR p) (hj : p.shelves[j]? = some s)
    (hw : w ≤ s.free) (hh : h ≤ s.h) (hwnn : 0 ≤ w)
    (hg : InvG p) : InvG (p.allocShelf j w h fid).2 := by
  have hfresh := storeGet_nextAddr_none p hInv
  have hfresh' : p.store.find? (fun e => e.1 = p.nextAddr) = none := by
    rw [storeGet_unfold] at hfresh
    exact Option.map_eq_none'.mp hfresh
  have hjlen : j < p.shelves.length := by
    rw [List.getElem?_eq_some_iff] at hj
    exact hj.1
  have heq : (p.allocShelf j w h fid).2 =
      { p with shelves := p.shelves.set j { s with x := s.x + w, free := s.free - w },
               store := p.store ++ [(p.nextAddr, ⟨fid, s.x, s.y, w, h, w, s.h, 1⟩)],
               nextAddr := p.nextAddr + 1,
               bins := regSet p.bins (idKey fid) p.nextAddr,
               stats := statsIncr p.stats h } := by
    rw [allocShelf_eq p j w h fid s hj hw hh hfresh]
  rw [heq]
  have hjQ : (p.shelves.set j { s with x := s.x + w, free := s.free - w })[j]? =
      some { s with x := s.x + w, free := s.free - w } := by
    simp [List.getElem?_set_self, hjlen]
  have hold : ∀ x, x ∈ (regSet p.bins (idKey fid) p.nextAddr).map Prod.snd ++
        p.freebins → x ≠ p.nextAddr → x ∈ liveAddrs p := by
    intro x hx hne
    rcases List.mem_append.mp hx with hxr | hxf
    · rcases regAddrs_regSet_sub p.bins (idKey fid) p.nextAddr x hxr with hxp | hxeq
      · exact List.mem_append.mpr (Or.inl hxp)
      · exact absurd hxeq hne
    · exact List.mem_append.mpr (Or.inr hxf)
  have honQ : ∀ b : Bin, BinOnShelf p.shelves b →
      BinOnShelf (p.shelves.set j { s with x := s.x + w, free := s.free - w }) b := by
    intro b ⟨k2, s3, hk2, hy2, hmh2, hxb2, hbw2, hbh2⟩
    by_cases hkj : k2 = j
    · subst hkj
      have hss : s3 = s := by
        rw [hj] at hk2
        exact (by injection hk2 : s = s3).symm
      subst hss
      refine ⟨k2, { s3 with x := s3.x + w, free := s3.free - w }, hjQ, hy2, hmh2, ?_,
        hbw2, hbh2⟩
      show b.x + b.maxw ≤ s3.x + w
      omega
    · exact ⟨k2, s3, by rw [List.getElem?_set_ne (fun hji => hkj hji.symm)]
                        exact hk2, hy2, hmh2, hxb2, hbw2, hbh2⟩
  have hband : ∀ b2 : Bin, BinOnShelf p.shelves b2 →
      ¬ RectsOverlap (binFootprint (⟨fid, s.x, s.y, w, h, w, s.h, 1⟩ : Bin))
        (binFootprint b2) := by
    intro b2 hon
    obtain ⟨k2, s3, hk2, hy2, hmh2, hxb2, -, -⟩ := hon
    by_cases hkj : k2 = j
    · subst hkj
      have hss : s3 = s := by
        rw [hj] at hk2
        exact (by injection hk2 : s = s3).symm
      subst hss
      refine not_overlap_of_x (Or.inr ?_)
      show b2.x + b2.maxw ≤ s3.x
      omega
    · rcases Nat.lt_or_ge k2 j with hlt | hge
      · have hyy := tiled_get_lt hg.tiled hlt hk2 hj
        refine not_overlap_of_y (Or.inr ?_)
        show b2.y + b2.maxh ≤ s.y
        omega
      · have hlt : j < k2 := by omega
        have hyy := tiled_get_lt hg.tiled hlt hj hk2
        refine not_overlap_of_y (Or.inl ?_)
        show s.y + s.h ≤ b2.y
        omega
  refine ⟨tiled_set hg.tiled hj rfl rfl, ?_, ?_⟩
  · intro x hx b' hb'
    by_cases hxn : x = p.nextAddr
    · subst hxn
      rw [storeGet_snoc_self p p.nextAddr ⟨fid, s.x, s.y, w, h, w, s.h, 1⟩
        hfresh' (p.shelves.set j { s with x := s.x + w, free := s.free - w })
        p.freebins (statsIncr p.stats h)
        (regSet p.bins (idKey fid) p.nextAddr) (p.nextAddr + 1)] at hb'
      have hbb' : (⟨fid, s.x, s.y, w, h, w, s.h, 1⟩ : Bin) = b' := by injection hb'
      rw [← hbb']
      refine ⟨j, { s with x := s.x + w, free := s.free - w }, hjQ, rfl, rfl, ?_,
        le_refl w, hh⟩
      show s.x + w ≤ s.x + w
      omega
    · rw [storeGet_snoc_other p p.nextAddr x ⟨fid, s.x, s.y, w, h, w, s.h, 1⟩ hxn
        (p.shelves.set j { s with x := s.x + w, free := s.free - w })
        p.freebins (statsIncr p.stats h)
        (regSet p.bins (idKey fid) p.nextAddr) (p.nextAddr + 1)] at hb'
      exact honQ b' (hg.onShelf x (hold x hx hxn) b' hb')
  · intro x1 hx1 x2 hx2 hne b1 b2 hb1 hb2
    by_cases h1 : x1 = p.nextAddr
    · subst h1
      have h2 : x2 ≠ p.nextAddr := Ne.symm hne
      rw [storeGet_snoc_self p p.nextAddr ⟨fid, s.x, s.y, w, h, w, s.h, 1⟩
        hfresh' (p.shelves.set j { s with x := s.x + w, free := s.free - w })
        p.freebins (statsIncr p.stats h)
        (regSet p.bins (idKey fid) p.nextAddr) (p.nextAddr + 1)] at hb1
      rw [storeGet_snoc_other p p.nextAddr x2 ⟨fid, s.x, s.y, w, h, w, s.h, 1⟩ h2
        (p.shelves.set j { s with x := s.x + w, free := s.free - w })
        p.freebins (statsIncr p.stats h)
        (regSet p.bins (idKey fid) p.nextAddr) (p.nextAddr + 1)] at hb2
      have hbb1 : (⟨fid, s.x, s.y, w, h, w, s.h, 1⟩ : Bin) = b1 := by injection hb1
      rw [← hbb1]
      exact hband b2 (hg.onShelf x2 (hold x2 hx2 h2) b2 hb2)
    · by_cases h2 : x2 = p.nextAddr
      · subst h2
        rw [storeGet_snoc_self p p.nextAddr ⟨fid, s.x, s.y, w, h, w, s.h, 1⟩
          hfresh' (p.shelves.set j { s with x := s.x + w, free := s.free - w })
          p.freebins (statsIncr p.stats h)
          (regSet p.bins (idKey fid) p.nextAddr) (p.nextAddr + 1)] at hb2
        rw [storeGet_snoc_other p p.nextAddr x1 ⟨fid, s.x, s.y, w, h, w, s.h, 1⟩ h1
          (p.shelves.set j { s with x := s.x + w, free := s.free - w })
          p.freebins (statsIncr p.stats h)
          (regSet p.bins (idKey fid) p.nextAddr) (p.nextAddr + 1)] at hb1
        have hbb2 : (⟨fid, s.x, s.y, w, h, w, s.h, 1⟩ : Bin) = b2 := by injection hb2
        rw [← hbb2]
        intro hov
        exact hband b1 (hg.onShelf x1 (hold x1 hx1 h1) b1 hb1) (overlap_symm hov)
      · rw [storeGet_snoc_other p p.nextAddr x1 ⟨fid, s.x, s.y, w, h, w, s.h, 1⟩ h1
          (p.shelves.set j { s with x := s.x + w, free := s.free - w })
          p.freebins (statsIncr p.stats h)
          (regSet p.bins (idKey fid) p.nextAddr) (p.nextAddr + 1)] at hb1
        rw [storeGet_snoc_other p p.nextAddr x2 ⟨fid, s.x, s.y, w, h, w, s.h, 1⟩ h2
          (p.shelves.set j { s with x := s.x + w, free := s.free - w })
          p.freebins (statsIncr p.stats h)
          (regSet p.bins (idKey fid) p.nextAddr) (p.nextAddr + 1)] at hb2
        exact hg.disj x1 (hold x1 hx1 h1) x2 (hold x2 hx2 h2) hne b1 b2 hb1 hb2

theorem invG_packOneCore (retry : ShelfPack → PackResult × ShelfPack)
    (w h : Int) (fid : BinId) (p : ShelfPack) (hInvR : InvR p) (hg : InvG p)
    (hwnn : 0 ≤ w) (hhnn : 0 ≤ h)
    (hretry : ∀ q, InvR q → InvG q → InvG (retry q).2) :
    InvG (packOneCore retry w h fid p).2 := by
  unfold packOneCore
  have hsufF : ∀ k : Nat, p.freebins[k]? = p.freebins[0 + k]? := by
    intro k
    rw [Nat.zero_add]
  have hsufS : ∀ k : Nat, p.shelves[k]? = p.shelves[0 + k]? := by
    intro k
    rw [Nat.zero_add]
  cases hfb : fbScan p w h p.freebins 0 ⟨-1, -1, none⟩ with
  | exact i =>
    show InvG (p.allocFreebin i w h fid).2
    obtain ⟨a, bin, hi, hsg, hmh, hmw⟩ := fbScan_exact_spec p w h p.freebins 0 _ i hsufF hfb
    exact invG_allocFreebin p i w h fid a bin hInvR hi hsg (le_of_eq hmw) (le_of_eq hmh) hg
  | done best1 =>
    have hok1 : FbBestOK p w h best1 ∧ best1.shelf = (-1 : Int) :=
      fbScan_done_spec p w h p.freebins 0 _ best1 hsufF hfb (Or.inl rfl)
    show InvG ((match shScan w h p.shelves 0 0 best1 with
          | ShScan.exact j => p.allocShelf j w h fid
          | ShScan.done best y =>
            if best.freebin ≠ -1 then p.allocFreebin best.freebin.toNat w h fid
            else if best.shelf ≠ -1 then p.allocShelf best.shelf.toNat w h fid
            else packFallback retry w h fid p y).2)
    cases hsh : shScan w h p.shelves 0 0 best1 with
    | exact j =>
      show InvG (p.allocShelf j w h fid).2
      obtain ⟨s, hj, hw2, hh2⟩ := shScan_exact_spec w h p.shelves p.shelves 0 0 best1 j hsufS hsh
      exact invG_allocShelf p j w h fid s hInvR hj hw2 (by omega) hwnn hg
    | done best2 y =>
      show InvG ((if best2.freebin ≠ -1 then p.allocFreebin best2.freebin.toNat w h fid
            else if best2.shelf ≠ -1 then p.allocShelf best2.shelf.toNat w h fid
            else packFallback retry w h fid p y).2)
      have hok2 : FbBestOK p w h best2 ∧ ShBestOK p.shelves w h best2 :=
        shScan_done_spec p w h p.shelves 0 0 best1 best2 y hsufS hsh hok1.1
          (Or.inl hok1.2)
      by_cases hbf : best2.freebin ≠ -1
      · rw [if_pos hbf]
        rcases hok2.1 with h1 | ⟨a, bin, hi, hsg, hmw, hmh⟩
        · exact absurd h1 hbf
        · exact invG_allocFreebin p _ w h fid a bin hInvR hi hsg hmw hmh hg
      · rw [if_neg hbf]
        by_cases hbs : best2.shelf ≠ -1
        · rw [if_pos hbs]
          rcases hok2.2 with h1 | ⟨s, hj, hw2, hh2⟩
          · exact absurd h1 hbs
          · exact invG_allocShelf p _ w h fid s hInvR hj hw2 hh2 hwnn hg
        · rw [if_neg hbs]
          have hyeq : y = totalShelfH p.shelves := by
            have h2 := shScan_eq w h p.shelves 0 0 best1
            rw [hsh] at h2
            cases hfi : firstIdxFrom (shExactP w h) p.shelves 0 with
            | some j => rw [hfi] at h2; exact ShScan.noConfusion h2
            | none =>
              rw [hfi] at h2
              injection h2 with h2a h2b
              omega
          unfold packFallback
          by_cases hfit : h ≤ p.h - y ∧ w ≤ p.w
          · rw [if_pos hfit]
            have hInvR' : InvR { p with shelves := p.shelves ++ [Shelf.make y p.w h 0] } :=
              ⟨hInvR.regStore, hInvR.regKeys, hInvR.regNodup, hInvR.freeNodup,
               hInvR.regFreeDisj, hInvR.freeStore, hInvR.storeDom⟩
            have hg' : InvG { p with shelves := p.shelves ++ [Shelf.make y p.w h 0] } := by
              refine ⟨tiled_append hg.tiled ?_ hhnn, ?_, ?_⟩
              · show y = 0 + totalShelfH p.shelves
                omega
              · intro x hx b hb
                obtain ⟨k, s3, hk, hy3, hmh3, hxb3, hbw3, hbh3⟩ := hg.onShelf x hx b hb
                have hklt : k < p.shelves.length := by
                  rw [List.getElem?_eq_some_iff] at hk
                  exact hk.1
                exact ⟨k, s3, by rw [List.getElem?_append_left hklt]; exact hk,
                  hy3, hmh3, hxb3, hbw3, hbh3⟩
              · exact hg.disj
            have hget : ({ p with shelves := p.shelves ++ [Shelf.make y p.w h 0] } :
                ShelfPack).shelves[p.shelves.length]? = some (Shelf.make y p.w h 0) := by
              simp
            exact invG_allocShelf _ p.shelves.length w h fid (Shelf.make y p.w h 0)
              hInvR' hget (by simpa [Shelf.make] using hfit.2) (le_refl h) hwnn hg'
          · rw [if_neg hfit]
            by_cases har : p.autoResize
            · rw [if_pos har]
              exact hretry _ (invR_resize p _ _ hInvR) (invG_resize p _ _ hg)
            · rw [if_neg har]
              exact hg

theorem invG_packOne (fuel : Nat) (w h : Int) (id? : Option BinId) (p : ShelfPack)
    (hInvR : InvR p) (hg : InvG p) (hwnn : 0 ≤ w) (hhnn : 0 ≤ h) :
    InvG (ShelfPack.packOne fuel w h id? p).2 := by
  induction fuel generalizing id? p with
  | zero => exact hg
  | succ fuel ih =>
    cases id? with
    | some id =>
      rw [show ShelfPack.packOne (fuel + 1) w h (some id) p =
          (match p.getBin id with
           | some a => (.ok (some a), (p.ref a).2)
           | none => packOneCore (ShelfPack.packOne fuel w h (some id)) w h id p) from rfl]
      cases hgb : p.getBin id with
      | some a =>
        show InvG (p.ref a).2
        exact invG_ref p a hInvR
          (List.mem_map.mpr ⟨(idKey id, a), regGet_mem hgb, rfl⟩) hg
      | none =>
        show InvG (packOneCore (ShelfPack.packOne fuel w h (some id)) w h id p).2
        exact invG_packOneCore _ w h id p hInvR hg hwnn hhnn
          (fun q hq hgq => ih (some id) q hq hgq)
    | none =>
      show InvG (packOneCore (ShelfPack.packOne fuel w h
        (some (BinId.num (p.maxId + 1)))) w h (BinId.num (p.maxId + 1))
        { p with maxId := p.maxId + 1 }).2
      have hInvR' : InvR { p with maxId := p.maxId + 1 } :=
        ⟨hInvR.regStore, hInvR.regKeys, hInvR.regNodup, hInvR.freeNodup,
         hInvR.regFreeDisj, hInvR.freeStore, hInvR.storeDom⟩
      have hg' : InvG { p with maxId := p.maxId + 1 } :=
        ⟨hg.tiled, hg.onShelf, hg.disj⟩
      exact invG_packOneCore _ w h _ _ hInvR' hg' hwnn hhnn (fun q hq hgq => ih _ q hq hgq)

theorem invG_packLoop (fuel : Nat) (inPlace : Bool) (items : List InputItem)
    (p : ShelfPack) (hInvR : InvR p) (hg : InvG p)
    (hitems : ∀ it ∈ items, ∀ wv hv : Int,
      jsOr it.w it.w = some wv → jsOr it.h it.h = some hv → 0 ≤ wv ∧ 0 ≤ hv) :
    InvG (ShelfPack.packLoop fuel inPlace items p).2.2 := by
  induction items generalizing p with
  | nil => exact hg
  | cons it rest ih =>
    cases hw : jsOr it.w it.w with
    | none =>
      rw [packLoop_cons_skip1 fuel inPlace it rest p hw]
      exact ih p hInvR hg (fun it' hit' => hitems it' (List.mem_cons_of_mem _ hit'))
    | some wv =>
      cases hh : jsOr it.h it.h with
      | none =>
        rw [packLoop_cons_skip2 fuel inPlace it rest p wv hw hh]
        exact ih p hInvR hg (fun it' hit' => hitems it' (List.mem_cons_of_mem _ hit'))
      | some hv =>
        rw [packLoop_cons_step fuel inPlace it rest p wv hv hw hh]
        obtain ⟨hwv, hhv⟩ := hitems it (List.mem_cons_self it rest) wv hv hw hh
        exact ih (ShelfPack.packOne fuel wv hv it.id p).2
          (invR_packOne fuel wv hv it.id p hInvR)
          (invG_packOne fuel wv hv it.id p hInvR hg hwv hhv)
          (fun it' hit' => hitems it' (List.mem_cons_of_mem _ hit'))

theorem invG_pack (fuel : Nat) (items : List InputItem) (inPlace : Bool)
    (p : ShelfPack) (hInvR : InvR p) (hg : InvG p)
    (hitems : ∀ it ∈ items, ∀ wv hv : Int,
      jsOr it.w it.w = some wv → jsOr it.h it.h = some hv → 0 ≤ wv ∧ 0 ≤ hv) :
    InvG (ShelfPack.pack fuel items inPlace p).2.2 := by
  show InvG (ShelfPack.packLoop fuel inPlace items p).2.2.shrink
  exact invG_shrink _ (invG_packLoop fuel inPlace items p hInvR hg hitems)

theorem invG_reach_aux (d : Bool) (p : ShelfPack) (hr : Reach d p) :
    d = true → InvG p := by
  induction hr with
  | init width height ar => exact fun _ => invG_make width height ar
  | packOne fuel w h id? p hp hw hh ih =>
    intro hd
    exact invG_packOne fuel w h id? p (invR_reach _ p hp) (ih hd) (hw hd) (hh hd)
  | pack fuel items inPlace p hp hitems ih =>
    intro hd
    exact invG_pack fuel items inPlace p (invR_reach _ p hp) (ih hd) (hitems hd)
  | ref a p hp ha ih =>
    intro hd
    exact invG_ref p a (invR_reach _ p hp) ha (ih hd)
  | unref a p hp ha ih =>
    intro hd
    exact invG_unref p a (invR_reach _ p hp) ha (ih hd)
  | resize w h p hp ih =>
    intro hd
    exact invG_resize p w h (ih hd)
  | shrink p hp ih =>
    intro hd
    exact invG_shrink p (ih hd)
  | clear p hp ih =>
    intro hd
    exact invG_clear p

theorem invG_reach (p : ShelfPack) (hr : Reach true p) : InvG p :=
  invG_reach_aux true p hr rfl

/-- C8: `shrink()` is idempotent: for every packer state, a second
`shrink()` changes nothing — in particular the container width and height
are those of the single call. -/
theorem c8_shrink_idempotent (p : ShelfPack) :
    p.shrink.shrink = p.shrink ∧
    p.shrink.shrink.w = p.shrink.w ∧ p.shrink.shrink.h = p.shrink.h :=
  ⟨shrink_shrink p, by rw [shrink_shrink], by rw [shrink_shrink]⟩

/-- C1 (amended): in every state reachable from a fresh `ShelfPack`
through the public operations under the documented discipline — `ref`
only on registered bins, `unref` only on registered or already-freed
bins, and nonnegative pack dimensions — no two bins registered under
distinct ids have overlapping rectangles `(x, y, w, h)`. -/
theorem c1_registry_no_overlap (p : ShelfPack) (hr : Reach true p) :
    NoActiveOverlap p := by
  have hInv := invR_reach true p hr
  have hG := invG_reach p hr
  intro e1 he1 e2 he2 hne b1 b2 hb1 hb2
  have hneAddr : e1.2 ≠ e2.2 := by
    intro haddr
    obtain ⟨c1, hc1, hid1, -⟩ := hInv.regStore e1 he1
    obtain ⟨c2, hc2, hid2, -⟩ := hInv.regStore e2 he2
    rw [haddr, hc2] at hc1
    have hcc : c2 = c1 := by injection hc1
    exact hne (by rw [← hid1, ← hid2, hcc])
  have hl1 : e1.2 ∈ liveAddrs p :=
    List.mem_append.mpr (Or.inl (List.mem_map.mpr ⟨e1, he1, rfl⟩))
  have hl2 : e2.2 ∈ liveAddrs p :=
    List.mem_append.mpr (Or.inl (List.mem_map.mpr ⟨e2, he2, rfl⟩))
  have hnd := hG.disj e1.2 hl1 e2.2 hl2 hneAddr b1 b2 hb1 hb2
  obtain ⟨-, -, -, -, -, -, hw1, hh1⟩ := hG.onShelf e1.2 hl1 b1 hb1
  obtain ⟨-, -, -, -, -, -, hw2, hh2⟩ := hG.onShelf e2.2 hl2 b2 hb2
  intro hov
  refine hnd (overlap_mono ?_ ?_ hov)
  · exact ⟨rfl, rfl, hw1, hh1⟩
  · exact ⟨rfl, rfl, hw2, hh2⟩

theorem c1_registry_no_overlap_witness : NoActiveOverlap pa :=
  c1_registry_no_overlap pa
    (Reach.packOne true 2 5 5 (some (.str "a")) p64
      (Reach.init true 64 64 false) (fun _ => by norm_num) (fun _ => by norm_num))

/-- C3 (amended): in every state reachable from a fresh `ShelfPack`
through the public operations under the documented `ref`/`unref`
discipline, every registered id maps to one stored bin with
`refcount ≥ 1` (registry keys are pairwise distinct), and every bin in
the free pool has `refcount = 0`. -/
theorem c3_registry_pool_sound (d : Bool) (p : ShelfPack) (hr : Reach d p) :
    RegistryAndPoolSound p := by
  have hInv := invR_reach d p hr
  refine ⟨fun e he => ?_, hInv.regKeys, fun a ha b hb => ?_⟩
  · obtain ⟨b, hb, -, hrc⟩ := hInv.regStore e he
    exact ⟨b, hb, hrc⟩
  · obtain ⟨b0, hb0, hrc0⟩ := hInv.freeStore a ha
    rw [hb0] at hb
    have hbb : b0 = b := by injection hb
    rw [← hbb]
    exact hrc0

theorem c3_registry_pool_sound_witness : RegistryAndPoolSound cexClear :=
  c3_registry_pool_sound false cexClear
    (Reach.packOne false 2 5 5 (some (.str "b")) pa.clear
      (Reach.clear false pa
        (Reach.packOne false 2 5 5 (some (.str "a")) p64
          (Reach.init false 64 64 false)
          (fun hd => Bool.noConfusion hd) (fun hd => Bool.noConfusion hd)))
      (fun hd => Bool.noConfusion hd) (fun hd => Bool.noConfusion hd))

end SP
